import Mathlib

/-!
Verification of the hierarchical account / points-ledger backend
(`Game-Venture-backend`).  The definitions below are a shallow embedding of
the TypeScript source: the Role Policy (`roleHierarchy`, `assignMap`,
`canAssign` from `rbac.middleware` / `company.controller`), the Membership
Oracle (`isInMyHierarchy`), the Wallet Ledger Engine (`loadCoins`,
`assignCoin` from the coin controller) and the Account Lifecycle operations
(`createUser` in both its variants, `updateUser`).

Monetary values are modelled as exact rationals (`ℚ`, the runtime numbers /
Prisma decimals); the `companies.points` column of the migration is declared
`INTEGER`, which the model records as the separate predicate
`PointsIntegral` (a rational is representable in that column iff its
denominator is 1).  Database rows are lists; the per-request database reads
and writes are explicit state passing on `DBState`.
-/

/-- The `Role` enum of the Prisma schema. -/
inductive Role where
  | ADMIN
  | DISTRIBUTOR
  | SUB_DISTRIBUTOR
  | STORE
  | PLAYER
deriving DecidableEq, Repr

deriving instance Fintype for Role

/-- `roleHierarchy` from `rbac.middleware`: ADMIN=5, DISTRIBUTOR=4,
SUB_DISTRIBUTOR=3, STORE=2, PLAYER=1. -/
def roleHierarchy : Role → Nat
  | .ADMIN => 5
  | .DISTRIBUTOR => 4
  | .SUB_DISTRIBUTOR => 3
  | .STORE => 2
  | .PLAYER => 1

/-- The `assignMap` adjacency table of `company.controller`. -/
def assignMap : Role → List Role
  | .ADMIN => [.DISTRIBUTOR, .SUB_DISTRIBUTOR, .STORE, .PLAYER]
  | .DISTRIBUTOR => [.SUB_DISTRIBUTOR]
  | .SUB_DISTRIBUTOR => [.STORE]
  | .STORE => [.PLAYER]
  | .PLAYER => []

/-- `canAssign` from `company.controller`: membership in the sender's
`assignMap` row. -/
def canAssign (senderRole receiverRole : Role) : Bool :=
  (assignMap senderRole).contains receiverRole

/-- A row of the `companies` table (the fields the core operations read or
write; the password hash is held by an external collaborator and is not
observable, so it is not stored). `points` is the runtime number written by
the Prisma client; the column's INTEGER constraint is tracked by
`PointsIntegral`. -/
structure Company where
  id : String
  username : String
  email : String
  role : Role
  parentId : Option String
  points : ℚ
deriving DecidableEq, Repr

/-- A row of the `wallets` table. -/
structure Wallet where
  id : Nat
  companyId : String
  balance : ℚ
deriving DecidableEq, Repr

/-- The `LedgerType` enum of the Prisma schema. -/
inductive LedgerType where
  | RECHARGE
  | WITHDRAW
  | BET
  | WIN
  | COMMISSION
  | ADJUSTMENT
deriving DecidableEq, Repr

/-- A row of the `ledgers` table. -/
structure LedgerEntry where
  companyId : String
  walletId : Nat
  type : LedgerType
  amount : ℚ
  balance : ℚ
  sourceType : Option String
  sourceId : Option String
  remark : String
deriving DecidableEq, Repr

/-- A row of the `payments` table (fields relevant to `loadCoins`). -/
structure Payment where
  companyId : String
  amount : ℚ
  merchant : String
  status : String
deriving DecidableEq, Repr

/-- A row of the `auditLogs` table. -/
structure AuditEntry where
  actorId : String
  action : String
  targetId : String
deriving DecidableEq, Repr

/-- The relational store touched by the core operations.  `nextWalletId`
models the generator of fresh wallet primary keys. -/
structure DBState where
  companies : List Company
  wallets : List Wallet
  ledgers : List LedgerEntry
  payments : List Payment
  audits : List AuditEntry
  nextWalletId : Nat
deriving DecidableEq, Repr

/-- `prisma.company.findUnique({ where: { id } })`. -/
def findCompany (st : DBState) (id : String) : Option Company :=
  st.companies.find? (fun c => c.id == id)

/-- `prisma.wallet.findUnique({ where: { companyId } })`. -/
def findWallet (st : DBState) (companyId : String) : Option Wallet :=
  st.wallets.find? (fun w => w.companyId == companyId)

/-- The lazy-wallet idiom of the source
(`findUnique ?? create({ balance: 0 })`): return the existing wallet, or
create one with balance 0 (this write happens outside any transaction). -/
def ensureWallet (st : DBState) (companyId : String) : Wallet × DBState :=
  match findWallet st companyId with
  | some w => (w, st)
  | none =>
      let w : Wallet := { id := st.nextWalletId, companyId := companyId, balance := 0 }
      (w, { st with wallets := st.wallets ++ [w], nextWalletId := st.nextWalletId + 1 })

/-- `findMany({ where: { parentId } })`: the direct children of a node. -/
def childrenOf (companies : List Company) (parentId : String) : List Company :=
  companies.filter (fun c => c.parentId == some parentId)

/-- The recursive Membership Oracle `isInMyHierarchy` of
`company.controller`, with explicit recursion fuel (the source recursion is
unbounded; on acyclic data it terminates, and `isInMyHierarchy` below
supplies fuel that is proved sufficient for every acyclic hierarchy). -/
def isInMyHierarchyFuel (companies : List Company) : Nat → String → String → Bool
  | 0, _, _ => false
  | fuel + 1, myId, targetId =>
      if myId = targetId then true
      else (childrenOf companies myId).any (fun c => isInMyHierarchyFuel companies fuel c.id targetId)

/-- `isInMyHierarchy(myId, targetId)`: true iff `targetId` is `myId` itself
or lies in `myId`'s descendant subtree. -/
def isInMyHierarchy (companies : List Company) (myId targetId : String) : Bool :=
  isInMyHierarchyFuel companies (companies.length + 2) myId targetId

/-- Outcomes of `loadCoins` (admin self top-up). -/
inductive LoadOutcome where
  | invalidAmount
  | unauthorized
  | ok (balance : ℚ)
deriving DecidableEq, Repr

/-- `wallet.update({ where: { id }, data: { balance } })` on a list of rows. -/
def setWalletBalance (wallets : List Wallet) (walletId : Nat) (balance : ℚ) : List Wallet :=
  wallets.map (fun w => if w.id = walletId then { w with balance := balance } else w)

/-- `company.update({ where: { id }, data: { points } })`. -/
def setPoints (companies : List Company) (companyId : String) (points : ℚ) : List Company :=
  companies.map (fun c => if c.id = companyId then { c with points := points } else c)

/-- `company.update({ where: { id }, data: { points: { increment: delta } } })`
(a decrement is an increment of the negated delta). -/
def adjustPoints (companies : List Company) (companyId : String) (delta : ℚ) : List Company :=
  companies.map (fun c => if c.id = companyId then { c with points := c.points + delta } else c)

/-- `loadCoins(adminId, amount)` from the coin controller: admin self
top-up.  Rejects `amount ≤ 0` and non-admin actors; lazily creates the
wallet; then, in one transaction, inserts a Payment and a RECHARGE ledger
row, sets the wallet balance and the `points` mirror, and writes an
AuditLog entry. -/
def loadCoins (st : DBState) (adminId : String) (amount : ℚ) : LoadOutcome × DBState :=
  if amount ≤ 0 then (.invalidAmount, st)
  else
    match findCompany st adminId with
    | none => (.unauthorized, st)
    | some admin =>
        if admin.role ≠ Role.ADMIN then (.unauthorized, st)
        else
          let ws := ensureWallet st adminId
          let adminWallet := ws.1
          let st1 := ws.2
          let newBalance := adminWallet.balance + amount
          let payment : Payment :=
            { companyId := admin.id, amount := amount, merchant := "ADMIN", status := "PAID" }
          let entry : LedgerEntry :=
            { companyId := admin.id, walletId := adminWallet.id, type := .RECHARGE,
              amount := amount, balance := newBalance, sourceType := none, sourceId := none,
              remark := "Admin self-loaded coins" }
          let audit : AuditEntry :=
            { actorId := admin.id, action := "LOAD_COINS_SELF", targetId := admin.id }
          (.ok newBalance,
            { st1 with
                wallets := setWalletBalance st1.wallets adminWallet.id newBalance,
                companies := setPoints st1.companies admin.id newBalance,
                ledgers := st1.ledgers ++ [entry],
                payments := st1.payments ++ [payment],
                audits := st1.audits ++ [audit] })

/-- Outcomes of `assignCoin` (the coin transfer endpoint). -/
inductive AssignOutcome where
  | badRequest
  | companyNotFound
  | notInHierarchy
  | cannotAssign
  | insufficientBalance
  | ok (senderBalance targetBalance : ℚ)
deriving DecidableEq, Repr

/-- The `$transaction` block of `assignCoin`: update both wallet balances,
decrement/increment the two `points` mirrors, and append the WITHDRAW and
RECHARGE ledger rows.  No AuditLog row is written by this transaction. -/
def commitTransfer (st : DBState) (senderCompany targetCompany : Company)
    (senderWallet targetWallet : Wallet) (amount : ℚ) : DBState :=
  let newSenderBal := senderWallet.balance - amount
  let newTargetBal := targetWallet.balance + amount
  let senderEntry : LedgerEntry :=
    { companyId := senderCompany.id, walletId := senderWallet.id, type := .WITHDRAW,
      amount := amount, balance := newSenderBal, sourceType := some "COMPANY",
      sourceId := some targetCompany.id,
      remark := "Transfer to " ++ targetCompany.username }
  let targetEntry : LedgerEntry :=
    { companyId := targetCompany.id, walletId := targetWallet.id, type := .RECHARGE,
      amount := amount, balance := newTargetBal, sourceType := some "COMPANY",
      sourceId := some senderCompany.id,
      remark := "Received from " ++ senderCompany.username }
  { st with
      wallets := setWalletBalance (setWalletBalance st.wallets senderWallet.id newSenderBal)
        targetWallet.id newTargetBal,
      companies := adjustPoints (adjustPoints st.companies senderCompany.id (-amount))
        targetCompany.id amount,
      ledgers := st.ledgers ++ [senderEntry, targetEntry] }

/-- `assignCoin(sender, { targetId, amount })` from the coin controller.
The request-body guard `!targetId || !amount` rejects an empty target id
and the amount 0 (JavaScript falsiness) — and nothing else; in particular a
negative amount passes it.  Then: both companies must exist; a non-admin
sender must pass the Membership Oracle and `canAssign`; wallets are lazily
created (a state change outside the transaction); the balance check
`senderWallet.balance < amount` rejects; otherwise the transfer commits. -/
def assignCoin (st : DBState) (senderId targetId : String) (amount : ℚ) :
    AssignOutcome × DBState :=
  if targetId = "" ∨ amount = 0 then (.badRequest, st)
  else
    match findCompany st senderId, findCompany st targetId with
    | some senderCompany, some targetCompany =>
        let isAdmin := senderCompany.role = Role.ADMIN
        if ¬isAdmin ∧ isInMyHierarchy st.companies senderId targetId = false then
          (.notInHierarchy, st)
        else if ¬isAdmin ∧ canAssign senderCompany.role targetCompany.role = false then
          (.cannotAssign, st)
        else
          let sws := ensureWallet st senderCompany.id
          let senderWallet := sws.1
          let st1 := sws.2
          let tws := ensureWallet st1 targetCompany.id
          let targetWallet := tws.1
          let st2 := tws.2
          if senderWallet.balance < amount then (.insufficientBalance, st2)
          else
            (.ok (senderWallet.balance - amount) (targetWallet.balance + amount),
              commitTransfer st2 senderCompany targetCompany senderWallet targetWallet amount)
    | _, _ => (.companyNotFound, st)

/-- Outcomes of the two `createUser` handlers. -/
inductive CreateOutcome where
  | badRequest
  | forbidden
  | conflict
  | created (newId : String)
deriving DecidableEq, Repr

/-- `createUser` of `company.controller` (part of the company controller
that checks BOTH the total-order rule and the `canAssign` adjacency map).
`newId` stands for the id the database mints for the new row.  An absent
email is modelled as `""`. -/
def createUser13 (st : DBState) (creator : Company) (newId username password : String)
    (role : Role) (email : String) : CreateOutcome × DBState :=
  if username = "" ∨ password = "" then (.badRequest, st)
  else if roleHierarchy creator.role ≤ roleHierarchy role then (.forbidden, st)
  else if canAssign creator.role role = false then (.forbidden, st)
  else if (st.companies.find? (fun c => c.username == username || c.email == email)).isSome then
    (.conflict, st)
  else
    let newUser : Company :=
      { id := newId, username := username, email := email, role := role,
        parentId := some creator.id, points := 0 }
    (.created newId, { st with companies := st.companies ++ [newUser] })

/-- The near-duplicate `createUser` of the other company controller entry
point, which checks ONLY the total-order rule (no `canAssign`), and only
username uniqueness. -/
def createUser10 (st : DBState) (creator : Company) (newId username password : String)
    (role : Role) (email : String) : CreateOutcome × DBState :=
  if username = "" ∨ password = "" then (.badRequest, st)
  else if roleHierarchy creator.role ≤ roleHierarchy role then (.forbidden, st)
  else if (st.companies.find? (fun c => c.username == username)).isSome then (.conflict, st)
  else
    let newUser : Company :=
      { id := newId, username := username, email := email, role := role,
        parentId := some creator.id, points := 0 }
    (.created newId, { st with companies := st.companies ++ [newUser] })

/-- Outcomes of `updateUser`. -/
inductive UpdateOutcome where
  | selfUpdateForbidden
  | notFound
  | noPermission
  | accessDenied
  | updated
deriving DecidableEq, Repr

/-- `updateUser` of `company.controller`.  The self-update branch sends a
403 response but is missing a `return`, so execution continues; the outcome
reported to the caller is the FIRST response sent.  The patch is the
(unfiltered) request body applied to the row. -/
def updateUser (st : DBState) (currentUser : Company) (id : String)
    (patch : Company → Company) : UpdateOutcome × DBState :=
  let selfMsgSent := id = currentUser.id
  let firstResponse : UpdateOutcome → UpdateOutcome :=
    fun o => if selfMsgSent then .selfUpdateForbidden else o
  match findCompany st id with
  | none => (firstResponse .notFound, st)
  | some target =>
      if canAssign currentUser.role target.role = false then (firstResponse .noPermission, st)
      else if isInMyHierarchy st.companies currentUser.id id = false ∧
          currentUser.role ≠ Role.ADMIN then
        (firstResponse .accessDenied, st)
      else
        (firstResponse .updated,
          { st with companies := st.companies.map (fun c => if c.id = id then patch c else c) })

/-! ## Ledger reconciliation invariant and state well-formedness -/

/-- The signed meaning of a ledger row: RECHARGE-like types count positive,
WITHDRAW-like types negative (the stored `amount` field carries no sign). -/
def signedAmount (e : LedgerEntry) : ℚ :=
  match e.type with
  | .RECHARGE => e.amount
  | .WIN => e.amount
  | .COMMISSION => e.amount
  | .ADJUSTMENT => e.amount
  | .WITHDRAW => -e.amount
  | .BET => -e.amount

/-- Running sum of signed ledger amounts for one wallet. -/
def ledgerSum (ledgers : List LedgerEntry) (walletId : Nat) : ℚ :=
  ((ledgers.filter (fun e => e.walletId == walletId)).map signedAmount).sum

/-- The reconciliation invariant: every wallet's balance is the signed sum
of its ledger rows; every account's `points` mirrors its wallet's balance,
and is 0 when the account has no wallet yet. -/
def Consistent (st : DBState) : Prop :=
  (∀ w ∈ st.wallets, w.balance = ledgerSum st.ledgers w.id) ∧
  (∀ c ∈ st.companies, ∀ w ∈ st.wallets, w.companyId = c.id → c.points = w.balance) ∧
  (∀ c ∈ st.companies, (∀ w ∈ st.wallets, w.companyId ≠ c.id) → c.points = 0)

/-- The `companies.points` column is declared INTEGER in the migration: a
state is representable only when every `points` value is an integer
(denominator 1). -/
def PointsIntegral (st : DBState) : Prop :=
  ∀ c ∈ st.companies, c.points.den = 1

/-- Structural well-formedness of the store: primary keys of `companies`
and `wallets` are unique, the `wallets.companyId` unique constraint holds,
and `nextWalletId` dominates every existing wallet id and every wallet id
referenced from the ledger. -/
def WF (st : DBState) : Prop :=
  (st.companies.map Company.id).Nodup ∧
  (st.wallets.map Wallet.id).Nodup ∧
  (st.wallets.map Wallet.companyId).Nodup ∧
  (∀ w ∈ st.wallets, w.id < st.nextWalletId) ∧
  (∀ e ∈ st.ledgers, e.walletId < st.nextWalletId)

/-- A monetary operation of the Wallet Ledger Engine. -/
inductive Op where
  | load (adminId : String) (amount : ℚ)
  | transfer (senderId targetId : String) (amount : ℚ)
deriving DecidableEq, Repr

/-- The state left behind by an operation (failed operations keep the state
they had already reached). -/
def applyOp (st : DBState) : Op → DBState
  | .load adminId amount => (loadCoins st adminId amount).2
  | .transfer senderId targetId amount => (assignCoin st senderId targetId amount).2

/-- Operations with an integer amount, transfers additionally between two
distinct accounts. -/
def GoodOp : Op → Prop
  | .load _ amount => amount.den = 1
  | .transfer senderId targetId amount => amount.den = 1 ∧ senderId ≠ targetId

/-- Run a sequence of monetary operations. -/
def runOps (st : DBState) (ops : List Op) : DBState :=
  ops.foldl applyOp st

/-! ## Reachability in the hierarchy -/

/-- `DescendN companies n x y`: `y` is reachable from `x` in exactly `n`
parent→child hops. -/
inductive DescendN (companies : List Company) : Nat → String → String → Prop where
  | refl (x : String) : DescendN companies 0 x x
  | step {x y : String} {c : Company} {n : Nat} :
      c ∈ companies → c.parentId = some x → DescendN companies n c.id y →
      DescendN companies (n + 1) x y

/-- `y` lies in `x`'s subtree (zero or more hops). -/
def Descend (companies : List Company) (x y : String) : Prop :=
  ∃ n, DescendN companies n x y

/-- One edge respects the height labelling `ht` (children strictly below
their parent). -/
def edgeOk (ht : String → Nat) (c : Company) : Bool :=
  match c.parentId with
  | none => true
  | some p => ht c.id < ht p

/-- `ht` certifies the parent-pointer graph acyclic: every stored edge
decreases it. -/
def htDecreasing (companies : List Company) (ht : String → Nat) : Bool :=
  companies.all (edgeOk ht)

/-- The labelling is bounded by the number of accounts (true of the height
of a node in any forest). -/
def htBounded (companies : List Company) (ht : String → Nat) : Bool :=
  companies.all (fun c => ht c.id ≤ companies.length)

/-! ## Example states used by concrete counterexamples and witnesses -/

/-- Shorthand for building a company row. -/
def mkCompany (id : String) (role : Role) (parentId : Option String) (points : ℚ) : Company :=
  { id := id, username := id, email := "", role := role, parentId := parentId, points := points }

/-- A store with one child player; both have funded wallets. -/
def egStoreSt : DBState :=
  { companies := [mkCompany "s" .STORE none 50, mkCompany "p" .PLAYER (some "s") 100],
    wallets := [⟨0, "s", 50⟩, ⟨1, "p", 100⟩],
    ledgers := [⟨"s", 0, .RECHARGE, 50, 50, none, none, ""⟩,
                ⟨"p", 1, .RECHARGE, 100, 100, none, none, ""⟩],
    payments := [], audits := [], nextWalletId := 2 }

/-- A store with one child player; neither has a wallet row yet. -/
def egNoWalletSt : DBState :=
  { companies := [mkCompany "s" .STORE none 0, mkCompany "p" .PLAYER (some "s") 0],
    wallets := [], ledgers := [], payments := [], audits := [], nextWalletId := 0 }

/-- A lone admin holding 10 coins. -/
def egAdminSelfSt : DBState :=
  { companies := [mkCompany "a" .ADMIN none 10],
    wallets := [⟨0, "a", 10⟩],
    ledgers := [⟨"a", 0, .RECHARGE, 10, 10, none, none, ""⟩],
    payments := [], audits := [], nextWalletId := 1 }

/-- An admin holding 10 coins with one distributor child (no wallet). -/
def egAdminSt : DBState :=
  { companies := [mkCompany "a" .ADMIN none 10, mkCompany "d" .DISTRIBUTOR (some "a") 0],
    wallets := [⟨0, "a", 10⟩],
    ledgers := [⟨"a", 0, .RECHARGE, 10, 10, none, none, ""⟩],
    payments := [], audits := [], nextWalletId := 1 }

/-- A state with no accounts at all. -/
def egEmptySt : DBState :=
  { companies := [], wallets := [], ledgers := [], payments := [], audits := [],
    nextWalletId := 0 }


/-- The effective balance of an account: its wallet's balance, or 0 when no
wallet row exists yet (wallets are lazily created at balance 0). -/
def walletBalance (st : DBState) (companyId : String) : ℚ :=
  (findWallet st companyId).elim 0 Wallet.balance

/-- A two-edge chain a → b → c used to witness the Membership Oracle
contract. -/
def egTreeCompanies : List Company :=
  [mkCompany "b" .DISTRIBUTOR (some "a") 0, mkCompany "c" .STORE (some "b") 0]

/-- A height labelling for `egTreeCompanies`. -/
def egHt : String → Nat :=
  fun s => if s = "a" then 2 else if s = "b" then 1 else 0

/-! ## Claim theorems -/

/-- C7: the Role Policy functions equal their reference tables: `roleHierarchy`
maps ADMIN↦5, DISTRIBUTOR↦4, SUB_DISTRIBUTOR↦3, STORE↦2, PLAYER↦1, and
`canAssign s r` holds exactly for ADMIN to each of the four lower roles and
for the three one-level-down pairs; PLAYER may assign to nobody. -/
theorem rolePolicy_tables_spec :
    (roleHierarchy .ADMIN = 5 ∧ roleHierarchy .DISTRIBUTOR = 4 ∧
      roleHierarchy .SUB_DISTRIBUTOR = 3 ∧ roleHierarchy .STORE = 2 ∧
      roleHierarchy .PLAYER = 1) ∧
    (∀ s r : Role, canAssign s r = true ↔
      ((s = .ADMIN ∧ (r = .DISTRIBUTOR ∨ r = .SUB_DISTRIBUTOR ∨ r = .STORE ∨ r = .PLAYER)) ∨
        (s = .DISTRIBUTOR ∧ r = .SUB_DISTRIBUTOR) ∨
        (s = .SUB_DISTRIBUTOR ∧ r = .STORE) ∨
        (s = .STORE ∧ r = .PLAYER))) ∧
    (∀ r : Role, canAssign .PLAYER r = false) := by
  decide

/-- C1: counterexample to "every transfer with amount ≤ 0 fails with
InvalidAmount and commits no state change".  A STORE (balance 50) calling
the transfer endpoint towards its child PLAYER (balance 100) with amount
−100 passes every guard (`!amount` only catches 0, and `balance < amount`
is false for a negative amount) and COMMITS a reverse transfer: the sender
ends at 150, the target at 0, and two ledger rows are written.  Amount 0 is
rejected, but by the missing-parameter guard, with no state change. -/
theorem assignCoin_negative_amount_commits :
    (assignCoin egStoreSt "s" "p" (-100)).1 = .ok 150 0 ∧
    findWallet (assignCoin egStoreSt "s" "p" (-100)).2 "s" = some ⟨0, "s", 150⟩ ∧
    findWallet (assignCoin egStoreSt "s" "p" (-100)).2 "p" = some ⟨1, "p", 0⟩ ∧
    (assignCoin egStoreSt "s" "p" (-100)).2.ledgers.length =
      egStoreSt.ledgers.length + 2 ∧
    assignCoin egStoreSt "s" "p" 0 = (.badRequest, egStoreSt) := by
  refine ⟨?_, ?_, ?_, ?_, ?_⟩ <;>
    simp [assignCoin, egStoreSt, mkCompany, findCompany, findWallet, ensureWallet,
      isInMyHierarchy, isInMyHierarchyFuel, childrenOf, canAssign, assignMap, commitTransfer,
      List.find?, List.filter, List.any, setWalletBalance, adjustPoints] <;>
    norm_num

/-- C4 counterexample: the claim "createUser succeeds iff the new role's
level is strictly lower, and no additional role condition restricts
creation" fails on the `company.controller` path: a DISTRIBUTOR creating a
STORE (level 2 < 4) is rejected there, because that path additionally
requires `canAssign`, while the near-duplicate controller path accepts the
same request. -/
theorem createUser13_blocks_two_levels_down :
    roleHierarchy .STORE < roleHierarchy .DISTRIBUTOR ∧
    createUser13 egEmptySt (mkCompany "d" .DISTRIBUTOR none 0) "n" "u" "pw" .STORE "" =
      (.forbidden, egEmptySt) ∧
    (createUser10 egEmptySt (mkCompany "d" .DISTRIBUTOR none 0) "n" "u" "pw" .STORE "").1 =
      .created "n" := by
  refine ⟨by decide, ?_, ?_⟩ <;>
    simp [createUser13, createUser10, egEmptySt, mkCompany, roleHierarchy, canAssign,
      assignMap, List.find?]

/-- C5 counterexample: conservation fails for an ADMIN self-transfer, which
the code accepts (the admin branch skips both hierarchy and role checks, and
nothing rejects `targetId = senderId`).  With balance 10 and amount 5 the
two sequential wallet updates leave the single wallet at 15: the "sender's"
balance decreased by −5 while the "target's" increased by 5. -/
theorem self_transfer_breaks_conservation :
    (assignCoin egAdminSelfSt "a" "a" 5).1 = .ok 5 15 ∧
    findWallet (assignCoin egAdminSelfSt "a" "a" 5).2 "a" = some ⟨0, "a", 15⟩ ∧
    ¬((10 : ℚ) - 15 = 15 - 10) := by
  refine ⟨?_, ?_, by norm_num⟩ <;>
    simp [assignCoin, egAdminSelfSt, mkCompany, findCompany, findWallet, ensureWallet,
      isInMyHierarchy, isInMyHierarchyFuel, childrenOf, canAssign, assignMap, commitTransfer,
      List.find?, List.filter, List.any, setWalletBalance, adjustPoints] <;>
    norm_num

/-- C8 counterexample: a successful transfer writes NO AuditLog row — the
`$transaction` of `assignCoin` contains only the wallet updates, points
updates and the two ledger rows (unlike `loadCoins`, which does insert an
audit entry).  Here an ADMIN successfully transfers 2 coins to its
distributor and the audit table is untouched. -/
theorem assignCoin_ok_writes_no_audit_concrete :
    (assignCoin egAdminSt "a" "d" 2).1 = .ok 8 2 ∧
    (assignCoin egAdminSt "a" "d" 2).2.audits = egAdminSt.audits ∧
    (assignCoin egAdminSt "a" "d" 2).2.audits = [] := by
  refine ⟨?_, ?_, ?_⟩ <;>
    simp [assignCoin, egAdminSt, mkCompany, findCompany, findWallet, ensureWallet,
      isInMyHierarchy, isInMyHierarchyFuel, childrenOf, canAssign, assignMap, commitTransfer,
      List.find?, List.filter, List.any, setWalletBalance, adjustPoints] <;>
    norm_num

/-- C9 counterexample: an insufficient-balance rejection is not effect-free:
the lazy wallet creation happens BEFORE the balance check and outside the
transaction, so a sender/target without wallet rows gets them created (at
balance 0) even though the transfer is rejected. -/
theorem insufficient_balance_creates_wallet_rows :
    (assignCoin egNoWalletSt "s" "p" 100).1 = .insufficientBalance ∧
    (assignCoin egNoWalletSt "s" "p" 100).2.wallets = [⟨0, "s", 0⟩, ⟨1, "p", 0⟩] ∧
    egNoWalletSt.wallets = [] := by
  refine ⟨?_, ?_, ?_⟩ <;>
    simp [assignCoin, egNoWalletSt, mkCompany, findCompany, findWallet, ensureWallet,
      isInMyHierarchy, isInMyHierarchyFuel, childrenOf, canAssign, assignMap, commitTransfer,
      List.find?, List.filter, List.any, setWalletBalance, adjustPoints]

/-- C10: a self-targeted `updateUser` never modifies the database.  The
explicit self-update branch fails to `return`, but the `canAssign` gate
then evaluates `canAssign r r`, which is false for every role (no role
appears in its own `assignMap` row), so the handler rejects before the
write — whether or not the actor's row is found. -/
theorem updateUser_self_never_writes :
    (∀ r : Role, canAssign r r = false) ∧
    ∀ (st : DBState) (cu : Company) (patch : Company → Company),
      (findCompany st cu.id = none ∨ findCompany st cu.id = some cu) →
      (updateUser st cu cu.id patch).2 = st := by
  refine ⟨by decide, ?_⟩
  intro st cu patch h
  unfold updateUser
  cases hf : findCompany st cu.id with
  | none => simp
  | some c =>
      rcases h with h | h
      · rw [hf] at h; exact absurd h (by simp)
      · rw [hf] at h
        injection h with h
        subst h
        have hc : canAssign c.role c.role = false := by cases c.role <;> decide
        simp [hc]

/-- Witness for C10 at a concrete state: a STORE patching itself changes
nothing. -/
theorem updateUser_self_never_writes_witness :
    (updateUser egStoreSt (mkCompany "s" .STORE none 50) "s"
      (fun c => { c with points := 42 })).2 = egStoreSt :=
  updateUser_self_never_writes.2 egStoreSt (mkCompany "s" .STORE none 50)
    (fun c => { c with points := 42 })
    (Or.inr (by simp [findCompany, egStoreSt, mkCompany, List.find?]))

/-! ## Membership Oracle: soundness and completeness -/

theorem mem_childrenOf {companies : List Company} {c : Company} {pid : String} :
    c ∈ childrenOf companies pid ↔ c ∈ companies ∧ c.parentId = some pid := by
  simp [childrenOf]

theorem isInMyHierarchyFuel_sound {companies : List Company} :
    ∀ {fuel : Nat} {x y : String},
      isInMyHierarchyFuel companies fuel x y = true → Descend companies x y := by
  intro fuel
  induction fuel with
  | zero => intro x y h; simp [isInMyHierarchyFuel] at h
  | succ f ih =>
      intro x y h
      unfold isInMyHierarchyFuel at h
      by_cases hxy : x = y
      · exact ⟨0, hxy ▸ DescendN.refl x⟩
      · rw [if_neg hxy] at h
        rcases List.any_eq_true.mp h with ⟨c, hc, hrec⟩
        rcases mem_childrenOf.mp hc with ⟨hcm, hcp⟩
        rcases ih hrec with ⟨n, hn⟩
        exact ⟨n + 1, DescendN.step hcm hcp hn⟩

theorem isInMyHierarchyFuel_complete {companies : List Company} {n : Nat} {x y : String}
    (hd : DescendN companies n x y) :
    ∀ {fuel : Nat}, n + 1 ≤ fuel → isInMyHierarchyFuel companies fuel x y = true := by
  induction hd with
  | refl z =>
      intro fuel hf
      match fuel, hf with
      | f + 1, _ => simp [isInMyHierarchyFuel]
  | @step x' y' c m hcm hcp hd' ih =>
      intro fuel hf
      match fuel, hf with
      | f + 1, hf =>
          unfold isInMyHierarchyFuel
          by_cases hxy : x' = y'
          · simp [hxy]
          · rw [if_neg hxy]
            refine List.any_eq_true.mpr ⟨c, mem_childrenOf.mpr ⟨hcm, hcp⟩, ?_⟩
            exact ih (by omega)

theorem htDecreasing_lt {companies : List Company} {ht : String → Nat}
    (h : htDecreasing companies ht = true) {c : Company} {p : String}
    (hc : c ∈ companies) (hp : c.parentId = some p) : ht c.id < ht p := by
  have h2 := List.all_eq_true.mp h c hc
  unfold edgeOk at h2
  rw [hp] at h2
  exact of_decide_eq_true h2

theorem htBounded_le {companies : List Company} {ht : String → Nat}
    (h : htBounded companies ht = true) {c : Company}
    (hc : c ∈ companies) : ht c.id ≤ companies.length := by
  have h2 := List.all_eq_true.mp h c hc
  exact of_decide_eq_true h2

theorem DescendN_le_ht {companies : List Company} {ht : String → Nat}
    (hdec : htDecreasing companies ht = true) :
    ∀ {n : Nat} {z y : String}, DescendN companies n z y → n ≤ ht z := by
  intro n z y hd
  induction hd with
  | refl => exact Nat.zero_le _
  | @step x' y' c m hcm hcp hd' ih =>
      have hedge : ht c.id < ht x' := htDecreasing_lt hdec hcm hcp
      omega

theorem DescendN_le_length {companies : List Company} {ht : String → Nat}
    (hdec : htDecreasing companies ht = true) (hbd : htBounded companies ht = true)
    {n : Nat} {x y : String} (hd : DescendN companies n x y) :
    n ≤ companies.length + 1 := by
  cases hd with
  | refl => omega
  | @step x' y' c m hcm hcp hd' =>
      have h1 : m ≤ ht c.id := DescendN_le_ht hdec hd'
      have h2 : ht c.id ≤ companies.length := htBounded_le hbd hcm
      omega

theorem DescendN_ht_lt {companies : List Company} {ht : String → Nat}
    (hdec : htDecreasing companies ht = true) :
    ∀ {n : Nat} {z w : String}, DescendN companies n z w → 1 ≤ n → ht w < ht z := by
  intro n z w hd
  induction hd with
  | refl => intro h; omega
  | @step x' y' c m hcm hcp hd' ih =>
      intro _
      have hedge : ht c.id < ht x' := htDecreasing_lt hdec hcm hcp
      cases hd' with
      | refl => exact hedge
      | @step a b c2 m2 h1 h2 h3 =>
          have := ih (by omega)
          omega

theorem DescendN_trans {companies : List Company} :
    ∀ {n m : Nat} {x y z : String}, DescendN companies n x y → DescendN companies m y z →
      DescendN companies (n + m) x z := by
  intro n m x y z h1 h2
  induction h1 with
  | refl => simpa using h2
  | @step x' y' c k hcm hcp hd ih =>
      have h3 := DescendN.step hcm hcp (ih h2)
      have : k + 1 + m = k + m + 1 := by omega
      rwa [this]

/-- C6: the Membership Oracle contract, on any acyclic bounded hierarchy
(certified by a height labelling `ht` that strictly decreases along every
stored parent→child edge and is bounded by the table size):
`isInMyHierarchy X X` is true; `isInMyHierarchy X Y` is true exactly when
`X = Y` or `Y` is reachable from `X` along one or more parent→child edges;
and it is false whenever `Y` is a proper ancestor of `X` (hence also
whenever `Y` is unrelated to `X`, by the iff). -/
theorem isInMyHierarchy_descendant_spec (companies : List Company) (ht : String → Nat)
    (hdec : htDecreasing companies ht = true) (hbd : htBounded companies ht = true)
    (x y : String) :
    isInMyHierarchy companies x x = true ∧
    (isInMyHierarchy companies x y = true ↔
      (x = y ∨ ∃ n, 1 ≤ n ∧ DescendN companies n x y)) ∧
    (x ≠ y → Descend companies y x → isInMyHierarchy companies x y = false) := by
  refine ⟨?_, ⟨?_, ?_⟩, ?_⟩
  · exact isInMyHierarchyFuel_complete (DescendN.refl x) (by omega)
  · intro h
    rcases isInMyHierarchyFuel_sound h with ⟨n, hn⟩
    by_cases hxy : x = y
    · exact Or.inl hxy
    · refine Or.inr ⟨n, ?_, hn⟩
      cases hn with
      | refl => exact absurd rfl hxy
      | step _ _ _ => omega
  · rintro (rfl | ⟨n, h1, hn⟩)
    · exact isInMyHierarchyFuel_complete (DescendN.refl x) (by omega)
    · have hb := DescendN_le_length hdec hbd hn
      exact isInMyHierarchyFuel_complete hn (by omega)
  · intro hxy hyx
    by_contra h
    have h2 : isInMyHierarchy companies x y = true := by
      cases hh : isInMyHierarchy companies x y
      · exact absurd hh h
      · rfl
    rcases isInMyHierarchyFuel_sound h2 with ⟨n, hn⟩
    rcases hyx with ⟨m, hm⟩
    have hn1 : 1 ≤ n := by
      cases hn with
      | refl => exact absurd rfl hxy
      | step _ _ _ => omega
    have hm1 : 1 ≤ m := by
      cases hm with
      | refl => exact absurd rfl (Ne.symm hxy)
      | step _ _ _ => omega
    have hcyc := DescendN_trans hn hm
    have := DescendN_ht_lt hdec hcyc (by omega)
    omega

/-- Witness for C6 on the concrete chain a → b → c. -/
theorem isInMyHierarchy_descendant_spec_witness :
    isInMyHierarchy egTreeCompanies "a" "a" = true ∧
    isInMyHierarchy egTreeCompanies "a" "c" = true ∧
    isInMyHierarchy egTreeCompanies "c" "a" = false := by
  have hbc : DescendN egTreeCompanies 2 "a" "c" :=
    DescendN.step (c := mkCompany "b" .DISTRIBUTOR (some "a") 0)
      (by simp [egTreeCompanies]) rfl
      (DescendN.step (c := mkCompany "c" .STORE (some "b") 0)
        (by simp [egTreeCompanies]) rfl (DescendN.refl _))
  have h1 := isInMyHierarchy_descendant_spec egTreeCompanies egHt (by decide) (by decide) "a" "c"
  have h2 := isInMyHierarchy_descendant_spec egTreeCompanies egHt (by decide) (by decide) "c" "a"
  exact ⟨h1.1, h1.2.1.mpr (Or.inr ⟨2, by omega, hbc⟩), h2.2.2 (by decide) ⟨2, hbc⟩⟩

/-! ## Helper lemmas about the store operations -/

theorem findWallet_none {st : DBState} {cid : String} (h : findWallet st cid = none) :
    ∀ w ∈ st.wallets, w.companyId ≠ cid := by
  intro w hw
  have := List.find?_eq_none.mp h w hw
  simpa using this

theorem ensureWallet_spec (st : DBState) (cid : String) :
    (ensureWallet st cid).2.companies = st.companies ∧
    (ensureWallet st cid).2.ledgers = st.ledgers ∧
    (ensureWallet st cid).2.payments = st.payments ∧
    (ensureWallet st cid).2.audits = st.audits ∧
    (ensureWallet st cid).1.companyId = cid ∧
    (ensureWallet st cid).1 ∈ (ensureWallet st cid).2.wallets ∧
    findWallet (ensureWallet st cid).2 cid = some (ensureWallet st cid).1 ∧
    st.nextWalletId ≤ (ensureWallet st cid).2.nextWalletId ∧
    (∃ extra, (ensureWallet st cid).2.wallets = st.wallets ++ extra ∧
      ∀ w ∈ extra, w.balance = 0) := by
  unfold ensureWallet
  cases hfw : findWallet st cid with
  | some w =>
      dsimp only
      have hmem : w ∈ st.wallets := List.mem_of_find?_eq_some hfw
      have hcid : w.companyId = cid := by simpa using List.find?_some hfw
      exact ⟨rfl, rfl, rfl, rfl, hcid, hmem, hfw, le_refl _, [], by simp, by simp⟩
  | none =>
      dsimp only
      have hfw2 : List.find? (fun w => w.companyId == cid) st.wallets = none := hfw
      refine ⟨rfl, rfl, rfl, rfl, rfl, by simp, ?_, by omega, [⟨st.nextWalletId, cid, 0⟩],
        rfl, by simp⟩
      show List.find? (fun w => w.companyId == cid)
        (st.wallets ++ [⟨st.nextWalletId, cid, 0⟩]) = _
      rw [List.find?_append, hfw2]
      simp [List.find?]

theorem ledgerSum_append (l1 l2 : List LedgerEntry) (wid : Nat) :
    ledgerSum (l1 ++ l2) wid = ledgerSum l1 wid + ledgerSum l2 wid := by
  simp [ledgerSum, List.filter_append]

theorem ledgerSum_eq_zero {l : List LedgerEntry} {wid : Nat}
    (h : ∀ e ∈ l, e.walletId ≠ wid) : ledgerSum l wid = 0 := by
  have hf : l.filter (fun e => e.walletId == wid) = [] := by
    rw [List.filter_eq_nil_iff]
    intro e he
    simpa using h e he
  simp [ledgerSum, hf]

theorem ledgerSum_cons (e : LedgerEntry) (l : List LedgerEntry) (wid : Nat) :
    ledgerSum (e :: l) wid =
      (if e.walletId = wid then signedAmount e else 0) + ledgerSum l wid := by
  by_cases h : e.walletId = wid <;> simp [ledgerSum, List.filter_cons, h]

theorem setWalletBalance_companyId (wallets : List Wallet) (wid : Nat) (b : ℚ) :
    (setWalletBalance wallets wid b).map Wallet.companyId = wallets.map Wallet.companyId := by
  unfold setWalletBalance
  rw [List.map_map]
  congr 1
  funext w
  by_cases h : w.id = wid <;> simp [h]

theorem setWalletBalance_id (wallets : List Wallet) (wid : Nat) (b : ℚ) :
    (setWalletBalance wallets wid b).map Wallet.id = wallets.map Wallet.id := by
  unfold setWalletBalance
  rw [List.map_map]
  congr 1
  funext w
  by_cases h : w.id = wid <;> simp [h]

theorem adjustPoints_id (companies : List Company) (cid : String) (d : ℚ) :
    (adjustPoints companies cid d).map Company.id = companies.map Company.id := by
  unfold adjustPoints
  rw [List.map_map]
  congr 1
  funext c
  by_cases h : c.id = cid <;> simp [h]

theorem setPoints_id (companies : List Company) (cid : String) (p : ℚ) :
    (setPoints companies cid p).map Company.id = companies.map Company.id := by
  unfold setPoints
  rw [List.map_map]
  congr 1
  funext c
  by_cases h : c.id = cid <;> simp [h]

theorem ensureWallet_preserves (st : DBState) (cid : String)
    (hwf : WF st) (hc : Consistent st) (hpi : PointsIntegral st) :
    WF (ensureWallet st cid).2 ∧ Consistent (ensureWallet st cid).2 ∧
      PointsIntegral (ensureWallet st cid).2 := by
  obtain ⟨h1, h2, h3, h4, h5⟩ := hwf
  obtain ⟨hc1, hc2, hc3⟩ := hc
  unfold ensureWallet
  cases hfw : findWallet st cid with
  | some w => exact ⟨⟨h1, h2, h3, h4, h5⟩, ⟨hc1, hc2, hc3⟩, hpi⟩
  | none =>
      dsimp only
      have hnone : ∀ w ∈ st.wallets, w.companyId ≠ cid := findWallet_none hfw
      refine ⟨⟨h1, ?_, ?_, ?_, ?_⟩, ⟨?_, ?_, ?_⟩, hpi⟩
      · rw [List.map_append, List.nodup_append]
        refine ⟨h2, by simp, ?_⟩
        intro x hx hx2
        simp only [List.map_cons, List.map_nil, List.mem_cons, List.not_mem_nil,
          or_false] at hx2
        rcases List.mem_map.mp hx with ⟨w, hw, hwid⟩
        have := h4 w hw
        omega
      · rw [List.map_append, List.nodup_append]
        refine ⟨h3, by simp, ?_⟩
        intro x hx hx2
        simp only [List.map_cons, List.map_nil, List.mem_cons, List.not_mem_nil,
          or_false] at hx2
        rcases List.mem_map.mp hx with ⟨w, hw, hwid⟩
        exact hnone w hw (hwid.symm ▸ hx2 ▸ rfl)
      · intro w hw
        rcases List.mem_append.mp hw with hw | hw
        · have := h4 w hw; dsimp only; omega
        · simp only [List.mem_singleton] at hw
          subst hw
          dsimp only
          omega
      · intro e he
        have := h5 e he
        dsimp only
        omega
      · intro w hw
        rcases List.mem_append.mp hw with hw | hw
        · exact hc1 w hw
        · simp only [List.mem_singleton] at hw
          subst hw
          exact (ledgerSum_eq_zero (fun e he => Nat.ne_of_lt (h5 e he))).symm
      · intro c hcm w hw hcw
        rcases List.mem_append.mp hw with hw | hw
        · exact hc2 c hcm w hw hcw
        · simp only [List.mem_singleton] at hw
          subst hw
          simp only at hcw
          have : ∀ w2 ∈ st.wallets, w2.companyId ≠ c.id := by
            intro w2 hw2
            rw [← hcw]
            exact hnone w2 hw2
          rw [hc3 c hcm this]
      · intro c hcm hno
        refine hc3 c hcm ?_
        intro w hw
        exact hno w (List.mem_append.mpr (Or.inl hw))

theorem den_one_add {x y : ℚ} (hx : x.den = 1) (hy : y.den = 1) : (x + y).den = 1 := by
  have hx2 := (Rat.den_eq_one_iff x).mp hx
  have hy2 := (Rat.den_eq_one_iff y).mp hy
  rw [← hx2, ← hy2, ← Int.cast_add]
  exact Rat.den_intCast _

theorem den_one_neg {x : ℚ} (hx : x.den = 1) : (-x).den = 1 := by
  have hx2 := (Rat.den_eq_one_iff x).mp hx
  rw [← hx2, ← Int.cast_neg]
  exact Rat.den_intCast _

theorem commitTransfer_def (st2 : DBState) (sc tc : Company) (sw tw : Wallet) (a : ℚ) :
    commitTransfer st2 sc tc sw tw a =
      { st2 with
          wallets := setWalletBalance (setWalletBalance st2.wallets sw.id (sw.balance - a))
            tw.id (tw.balance + a),
          companies := adjustPoints (adjustPoints st2.companies sc.id (-a)) tc.id a,
          ledgers := st2.ledgers ++
            [⟨sc.id, sw.id, .WITHDRAW, a, sw.balance - a, some "COMPANY", some tc.id,
              "Transfer to " ++ tc.username⟩,
             ⟨tc.id, tw.id, .RECHARGE, a, tw.balance + a, some "COMPANY", some sc.id,
              "Received from " ++ sc.username⟩] } := rfl

theorem commitTransfer_preserves
    {st2 : DBState} {sc tc : Company} {sw tw : Wallet} {a : ℚ}
    (hwf : WF st2) (hcons : Consistent st2) (hpi : PointsIntegral st2)
    (hsc : sc ∈ st2.companies) (htc : tc ∈ st2.companies)
    (hsw : sw ∈ st2.wallets) (htw : tw ∈ st2.wallets)
    (hswc : sw.companyId = sc.id) (htwc : tw.companyId = tc.id)
    (hne : sc.id ≠ tc.id) (hden : a.den = 1) :
    WF (commitTransfer st2 sc tc sw tw a) ∧
    Consistent (commitTransfer st2 sc tc sw tw a) ∧
    PointsIntegral (commitTransfer st2 sc tc sw tw a) := by
  obtain ⟨hn1, hn2, hn3, hb4, hb5⟩ := hwf
  obtain ⟨hc1, hc2, hc3⟩ := hcons
  have hswtw : sw ≠ tw := fun h => hne (by rw [← hswc, h, htwc])
  have hid : sw.id ≠ tw.id := fun h => hswtw (List.inj_on_of_nodup_map hn2 hsw htw h)
  rw [commitTransfer_def]
  set eS : LedgerEntry := ⟨sc.id, sw.id, .WITHDRAW, a, sw.balance - a, some "COMPANY",
    some tc.id, "Transfer to " ++ tc.username⟩ with heS
  set eT : LedgerEntry := ⟨tc.id, tw.id, .RECHARGE, a, tw.balance + a, some "COMPANY",
    some sc.id, "Received from " ++ sc.username⟩ with heT
  set F : Wallet → Wallet := fun w =>
    (fun w2 => if w2.id = tw.id then { w2 with balance := tw.balance + a } else w2)
    ((fun w1 => if w1.id = sw.id then { w1 with balance := sw.balance - a } else w1) w)
    with hF
  set G : Company → Company := fun c =>
    (fun c2 => if c2.id = tc.id then { c2 with points := c2.points + a } else c2)
    ((fun c1 => if c1.id = sc.id then { c1 with points := c1.points + -a } else c1) c)
    with hG
  have hWmap : setWalletBalance (setWalletBalance st2.wallets sw.id (sw.balance - a))
      tw.id (tw.balance + a) = st2.wallets.map F := by
    unfold setWalletBalance
    rw [List.map_map]
    rfl
  have hCmap : adjustPoints (adjustPoints st2.companies sc.id (-a)) tc.id a =
      st2.companies.map G := by
    unfold adjustPoints
    rw [List.map_map]
    rfl
  have hFid : ∀ w : Wallet, (F w).id = w.id := by
    intro w
    rw [hF]
    dsimp only
    by_cases h1 : w.id = sw.id
    · rw [if_pos h1]
      dsimp only
      by_cases h2 : w.id = tw.id
      · rw [if_pos h2]
      · rw [if_neg h2]
    · rw [if_neg h1]
      by_cases h2 : w.id = tw.id
      · rw [if_pos h2]
      · rw [if_neg h2]
  have hFcid : ∀ w : Wallet, (F w).companyId = w.companyId := by
    intro w
    rw [hF]
    dsimp only
    by_cases h1 : w.id = sw.id
    · rw [if_pos h1]
      dsimp only
      by_cases h2 : w.id = tw.id
      · rw [if_pos h2]
      · rw [if_neg h2]
    · rw [if_neg h1]
      by_cases h2 : w.id = tw.id
      · rw [if_pos h2]
      · rw [if_neg h2]
  have hGid : ∀ c : Company, (G c).id = c.id := by
    intro c
    rw [hG]
    dsimp only
    by_cases h1 : c.id = sc.id
    · rw [if_pos h1]
      dsimp only
      by_cases h2 : c.id = tc.id
      · rw [if_pos h2]
      · rw [if_neg h2]
    · rw [if_neg h1]
      by_cases h2 : c.id = tc.id
      · rw [if_pos h2]
      · rw [if_neg h2]
  have hFsw : F sw = { sw with balance := sw.balance - a } := by
    rw [hF]
    dsimp only
    rw [if_pos rfl]
    dsimp only
    rw [if_neg hid]
  have hFtw : F tw = { tw with balance := tw.balance + a } := by
    rw [hF]
    dsimp only
    rw [if_neg (fun h : tw.id = sw.id => hid h.symm)]
    rw [if_pos rfl]
  have hFother : ∀ w : Wallet, w.id ≠ sw.id → w.id ≠ tw.id → F w = w := by
    intro w h1 h2
    rw [hF]
    dsimp only
    rw [if_neg h1, if_neg h2]
  have hGsc : G sc = { sc with points := sc.points + -a } := by
    rw [hG]
    dsimp only
    rw [if_pos rfl]
    dsimp only
    rw [if_neg hne]
  have hGtc : G tc = { tc with points := tc.points + a } := by
    rw [hG]
    dsimp only
    rw [if_neg (fun h : tc.id = sc.id => hne h.symm)]
    rw [if_pos rfl]
  have hGother : ∀ c : Company, c.id ≠ sc.id → c.id ≠ tc.id → G c = c := by
    intro c h1 h2
    rw [hG]
    dsimp only
    rw [if_neg h1, if_neg h2]
  have hpairSum : ∀ wid : Nat, ledgerSum [eS, eT] wid =
      (if sw.id = wid then -a else 0) + (if tw.id = wid then a else 0) := by
    intro wid
    rw [ledgerSum_cons, ledgerSum_cons]
    have h0 : ledgerSum [] wid = 0 := rfl
    have hS : signedAmount eS = -a := rfl
    have hT : signedAmount eT = a := rfl
    rw [h0, hS, hT]
    have hwS : eS.walletId = sw.id := rfl
    have hwT : eT.walletId = tw.id := rfl
    rw [hwS, hwT]
    by_cases h1 : sw.id = wid <;> by_cases h2 : tw.id = wid <;>
      rw [if_congr (Iff.rfl) rfl rfl] <;> simp [h1, h2]
  refine ⟨⟨?_, ?_, ?_, ?_, ?_⟩, ⟨?_, ?_, ?_⟩, ?_⟩
  · -- WF: company ids Nodup
    dsimp only
    rw [hCmap, List.map_map]
    have : Company.id ∘ G = Company.id := funext hGid
    rw [this]
    exact hn1
  · -- WF: wallet ids Nodup
    dsimp only
    rw [hWmap, List.map_map]
    have : Wallet.id ∘ F = Wallet.id := funext hFid
    rw [this]
    exact hn2
  · -- WF: wallet companyIds Nodup
    dsimp only
    rw [hWmap, List.map_map]
    have : Wallet.companyId ∘ F = Wallet.companyId := funext hFcid
    rw [this]
    exact hn3
  · -- WF: wallet ids bounded
    intro w' hw'
    dsimp only at hw' ⊢
    rw [hWmap] at hw'
    rcases List.mem_map.mp hw' with ⟨w, hw, rfl⟩
    rw [hFid]
    exact hb4 w hw
  · -- WF: ledger wallet ids bounded
    intro e he
    dsimp only at he ⊢
    rcases List.mem_append.mp he with he | he
    · exact hb5 e he
    · rcases List.mem_cons.mp he with he | he
      · rw [he]
        exact hb4 sw hsw
      · rcases List.mem_cons.mp he with he | he
        · rw [he]
          exact hb4 tw htw
        · exact absurd he (List.not_mem_nil e)
  · -- Consistent: balance = ledger sum
    intro w' hw'
    dsimp only at hw' ⊢
    rw [hWmap] at hw'
    rcases List.mem_map.mp hw' with ⟨w, hw, rfl⟩
    rw [ledgerSum_append, hpairSum, hFid]
    by_cases h1 : w.id = sw.id
    · have hwsw : w = sw := List.inj_on_of_nodup_map hn2 hw hsw h1
      subst hwsw
      rw [hFsw, if_pos rfl, if_neg (fun h => hid h.symm)]
      dsimp only
      rw [← hc1 w hw]
      ring
    · by_cases h2 : w.id = tw.id
      · have hwtw : w = tw := List.inj_on_of_nodup_map hn2 hw htw h2
        subst hwtw
        rw [hFtw, if_neg hid, if_pos rfl]
        dsimp only
        rw [← hc1 w hw]
        ring
      · rw [hFother w h1 h2, if_neg (fun h => h1 h.symm), if_neg (fun h => h2 h.symm),
          ← hc1 w hw]
        ring
  · -- Consistent: points mirror balances
    intro c' hc' w' hw' hcw
    dsimp only at hc' hw' hcw ⊢
    rw [hCmap] at hc'
    rw [hWmap] at hw'
    rcases List.mem_map.mp hc' with ⟨c, hcm, rfl⟩
    rcases List.mem_map.mp hw' with ⟨w, hwm, rfl⟩
    rw [hFcid, hGid] at hcw
    by_cases h1 : c.id = sc.id
    · have hcc : c = sc := List.inj_on_of_nodup_map hn1 hcm hsc h1
      subst hcc
      have hww : w = sw := by
        refine List.inj_on_of_nodup_map hn3 hwm hsw ?_
        rw [hcw, hswc]
      subst hww
      rw [hGsc, hFsw]
      dsimp only
      rw [hc2 c hcm w hwm hcw]
      ring
    · by_cases h2 : c.id = tc.id
      · have hcc : c = tc := List.inj_on_of_nodup_map hn1 hcm htc h2
        subst hcc
        have hww : w = tw := by
          refine List.inj_on_of_nodup_map hn3 hwm htw ?_
          rw [hcw, htwc]
        subst hww
        rw [hGtc, hFtw]
        dsimp only
        rw [hc2 c hcm w hwm hcw]
      · have hw1 : w.id ≠ sw.id := by
          intro h
          have : w = sw := List.inj_on_of_nodup_map hn2 hwm hsw h
          rw [this, hswc] at hcw
          exact h1 hcw.symm
        have hw2 : w.id ≠ tw.id := by
          intro h
          have : w = tw := List.inj_on_of_nodup_map hn2 hwm htw h
          rw [this, htwc] at hcw
          exact h2 hcw.symm
        rw [hGother c h1 h2, hFother w hw1 hw2]
        exact hc2 c hcm w hwm hcw
  · -- Consistent: companies without wallets have 0 points
    intro c' hc' hno
    dsimp only at hc' hno ⊢
    rw [hCmap] at hc'
    rcases List.mem_map.mp hc' with ⟨c, hcm, rfl⟩
    rw [hGid] at hno
    by_cases h1 : c.id = sc.id
    · exfalso
      refine hno (F sw) ?_ ?_
      · rw [hWmap]
        exact List.mem_map_of_mem F hsw
      · rw [hFcid, hswc, h1]
    · by_cases h2 : c.id = tc.id
      · exfalso
        refine hno (F tw) ?_ ?_
        · rw [hWmap]
          exact List.mem_map_of_mem F htw
        · rw [hFcid, htwc, h2]
      · rw [hGother c h1 h2]
        refine hc3 c hcm ?_
        intro w hw
        have := hno (F w) (by rw [hWmap]; exact List.mem_map_of_mem F hw)
        rwa [hFcid] at this
  · -- PointsIntegral
    intro c' hc'
    dsimp only at hc' ⊢
    rw [hCmap] at hc'
    rcases List.mem_map.mp hc' with ⟨c, hcm, rfl⟩
    have hcd := hpi c hcm
    rw [hG]
    dsimp only
    by_cases h1 : c.id = sc.id
    · rw [if_pos h1]
      dsimp only
      by_cases h2 : c.id = tc.id
      · rw [if_pos h2]
        exact den_one_add (den_one_add hcd (den_one_neg hden)) hden
      · rw [if_neg h2]
        exact den_one_add hcd (den_one_neg hden)
    · rw [if_neg h1]
      by_cases h2 : c.id = tc.id
      · rw [if_pos h2]
        exact den_one_add hcd hden
      · rw [if_neg h2]
        exact hcd

theorem findCompany_mem {st : DBState} {i : String} {c : Company}
    (h : findCompany st i = some c) : c ∈ st.companies ∧ c.id = i :=
  ⟨List.mem_of_find?_eq_some h, by simpa using List.find?_some h⟩

theorem assignCoin_preserves {st : DBState} {s t : String} {a : ℚ}
    (hwf : WF st) (hc : Consistent st) (hpi : PointsIntegral st)
    (hne : s ≠ t) (hden : a.den = 1) :
    WF (assignCoin st s t a).2 ∧ Consistent (assignCoin st s t a).2 ∧
      PointsIntegral (assignCoin st s t a).2 := by
  unfold assignCoin
  split
  · exact ⟨hwf, hc, hpi⟩
  · split
    case _ sc tc hsc htc =>
      dsimp only
      obtain ⟨hscm, hscid⟩ := findCompany_mem hsc
      obtain ⟨htcm, htcid⟩ := findCompany_mem htc
      split
      · exact ⟨hwf, hc, hpi⟩
      · split
        · exact ⟨hwf, hc, hpi⟩
        · obtain ⟨hA1, hA2, hA3⟩ := ensureWallet_preserves st sc.id hwf hc hpi
          obtain ⟨hB1, hB2, hB3⟩ :=
            ensureWallet_preserves (ensureWallet st sc.id).2 tc.id hA1 hA2 hA3
          split
          · exact ⟨hB1, hB2, hB3⟩
          · obtain ⟨hsA, _, _, _, hAcid, hAmem, _, _, _⟩ := ensureWallet_spec st sc.id
            obtain ⟨hsB, _, _, _, hBcid, hBmem, _, _, hBext⟩ :=
              ensureWallet_spec (ensureWallet st sc.id).2 tc.id
            rcases hBext with ⟨extra, hBw, _⟩
            refine commitTransfer_preserves hB1 hB2 hB3 ?_ ?_ ?_ hBmem ?_ hBcid ?_ hden
            · rw [hsB, hsA]
              exact hscm
            · rw [hsB, hsA]
              exact htcm
            · rw [hBw]
              exact List.mem_append.mpr (Or.inl hAmem)
            · exact hAcid
            · rw [hscid, htcid]
              exact hne
    case _ => exact ⟨hwf, hc, hpi⟩

theorem loadCoins_preserves {st : DBState} {adminId : String} {a : ℚ}
    (hwf : WF st) (hc : Consistent st) (hpi : PointsIntegral st)
    (hden : a.den = 1) :
    WF (loadCoins st adminId a).2 ∧ Consistent (loadCoins st adminId a).2 ∧
      PointsIntegral (loadCoins st adminId a).2 := by
  unfold loadCoins
  split
  · exact ⟨hwf, hc, hpi⟩
  · split
    case _ => exact ⟨hwf, hc, hpi⟩
    case _ admin hadm =>
      split
      · exact ⟨hwf, hc, hpi⟩
      · dsimp only
        obtain ⟨hadmm, hadmid⟩ := findCompany_mem hadm
        obtain ⟨h1, h2, h3⟩ := ensureWallet_preserves st adminId hwf hc hpi
        obtain ⟨hsC, hsL, hsP, hsA, hwcid, hwmem, _, _, _⟩ := ensureWallet_spec st adminId
        set st1 := (ensureWallet st adminId).2 with hst1
        set w := (ensureWallet st adminId).1 with hw
        obtain ⟨hn1, hn2, hn3, hb4, hb5⟩ := h1
        obtain ⟨hc1, hc2, hc3⟩ := h2
        have hadmm1 : admin ∈ st1.companies := by rw [hsC]; exact hadmm
        set nb := w.balance + a with hnb
        set F : Wallet → Wallet := fun w2 =>
          if w2.id = w.id then { w2 with balance := nb } else w2 with hF
        set G : Company → Company := fun c =>
          if c.id = admin.id then { c with points := nb } else c with hG
        have hWmap : setWalletBalance st1.wallets w.id nb = st1.wallets.map F := rfl
        have hCmap : setPoints st1.companies admin.id nb = st1.companies.map G := rfl
        have hFid : ∀ w2 : Wallet, (F w2).id = w2.id := by
          intro w2
          rw [hF]
          dsimp only
          by_cases hh : w2.id = w.id
          · rw [if_pos hh]
          · rw [if_neg hh]
        have hFcid : ∀ w2 : Wallet, (F w2).companyId = w2.companyId := by
          intro w2
          rw [hF]
          dsimp only
          by_cases hh : w2.id = w.id
          · rw [if_pos hh]
          · rw [if_neg hh]
        have hGid : ∀ c : Company, (G c).id = c.id := by
          intro c
          rw [hG]
          dsimp only
          by_cases hh : c.id = admin.id
          · rw [if_pos hh]
          · rw [if_neg hh]
        have hFw : F w = { w with balance := nb } := by
          rw [hF]
          dsimp only
          rw [if_pos rfl]
        have hFother : ∀ w2 : Wallet, w2.id ≠ w.id → F w2 = w2 := by
          intro w2 hh
          rw [hF]
          dsimp only
          rw [if_neg hh]
        have hGadmin : G admin = { admin with points := nb } := by
          rw [hG]
          dsimp only
          rw [if_pos rfl]
        have hGother : ∀ c : Company, c.id ≠ admin.id → G c = c := by
          intro c hh
          rw [hG]
          dsimp only
          rw [if_neg hh]
        have hwadm : w.companyId = admin.id := by rw [hwcid, hadmid]
        -- the admin's wallet is the unique wallet with its companyId,
        -- and the admin row is the unique row with its id
        have hballedg : w.balance = ledgerSum st1.ledgers w.id := hc1 w hwmem
        have hpts : admin.points = w.balance := hc2 admin hadmm1 w hwmem hwadm
        have hnbden : nb.den = 1 := by
          have hpd : admin.points.den = 1 := h3 admin hadmm1
          rw [hnb, ← hpts]
          exact den_one_add hpd hden
        refine ⟨⟨?_, ?_, ?_, ?_, ?_⟩, ⟨?_, ?_, ?_⟩, ?_⟩
        · dsimp only
          rw [hCmap, List.map_map]
          have : Company.id ∘ G = Company.id := funext hGid
          rw [this]
          exact hn1
        · dsimp only
          rw [hWmap, List.map_map]
          have : Wallet.id ∘ F = Wallet.id := funext hFid
          rw [this]
          exact hn2
        · dsimp only
          rw [hWmap, List.map_map]
          have : Wallet.companyId ∘ F = Wallet.companyId := funext hFcid
          rw [this]
          exact hn3
        · intro w' hw'
          dsimp only at hw' ⊢
          rw [hWmap] at hw'
          rcases List.mem_map.mp hw' with ⟨w2, hw2, rfl⟩
          rw [hFid]
          exact hb4 w2 hw2
        · intro e he
          dsimp only at he ⊢
          rcases List.mem_append.mp he with he | he
          · exact hb5 e he
          · rcases List.mem_cons.mp he with he | he
            · rw [he]
              exact hb4 w hwmem
            · exact absurd he (List.not_mem_nil e)
        · intro w' hw'
          dsimp only at hw' ⊢
          rw [hWmap] at hw'
          rcases List.mem_map.mp hw' with ⟨w2, hw2, rfl⟩
          rw [ledgerSum_append, ledgerSum_cons, hFid]
          have h0 : ledgerSum [] w2.id = 0 := rfl
          rw [h0]
          by_cases hh : w2.id = w.id
          · have hww : w2 = w := List.inj_on_of_nodup_map hn2 hw2 hwmem hh
            subst hww
            rw [hFw]
            dsimp only
            rw [if_pos rfl]
            have hsgn : signedAmount
                ⟨admin.id, w.id, .RECHARGE, a, nb, none, none, "Admin self-loaded coins"⟩
                = a := rfl
            rw [hsgn, ← hc1 w hwmem]
            ring
          · rw [hFother w2 hh]
            have hwid : (⟨admin.id, w.id, LedgerType.RECHARGE, a, nb, none, none,
                "Admin self-loaded coins"⟩ : LedgerEntry).walletId = w.id := rfl
            rw [if_neg (by rw [hwid]; exact fun hx => hh hx.symm)]
            rw [← hc1 w2 hw2]
            ring
        · intro c' hc' w' hw' hcw
          dsimp only at hc' hw' hcw ⊢
          rw [hCmap] at hc'
          rw [hWmap] at hw'
          rcases List.mem_map.mp hc' with ⟨c, hcm, rfl⟩
          rcases List.mem_map.mp hw' with ⟨w2, hw2, rfl⟩
          rw [hFcid, hGid] at hcw
          by_cases hh : c.id = admin.id
          · have hcc : c = admin := List.inj_on_of_nodup_map hn1 hcm hadmm1 hh
            subst hcc
            have hww : w2 = w := by
              refine List.inj_on_of_nodup_map hn3 hw2 hwmem ?_
              rw [hcw, hwadm]
            subst hww
            rw [hGadmin, hFw]
          · have hw2id : w2.id ≠ w.id := by
              intro hx
              have : w2 = w := List.inj_on_of_nodup_map hn2 hw2 hwmem hx
              rw [this, hwadm] at hcw
              exact hh hcw.symm
            rw [hGother c hh, hFother w2 hw2id]
            exact hc2 c hcm w2 hw2 hcw
        · intro c' hc' hno
          dsimp only at hc' hno ⊢
          rw [hCmap] at hc'
          rcases List.mem_map.mp hc' with ⟨c, hcm, rfl⟩
          rw [hGid] at hno
          by_cases hh : c.id = admin.id
          · exfalso
            refine hno (F w) ?_ ?_
            · rw [hWmap]
              exact List.mem_map_of_mem F hwmem
            · rw [hFcid, hwadm, hh]
          · rw [hGother c hh]
            refine hc3 c hcm ?_
            intro w2 hw2
            have := hno (F w2) (by rw [hWmap]; exact List.mem_map_of_mem F hw2)
            rwa [hFcid] at this
        · intro c' hc'
          dsimp only at hc' ⊢
          rw [hCmap] at hc'
          rcases List.mem_map.mp hc' with ⟨c, hcm, rfl⟩
          by_cases hh : c.id = admin.id
          · have hcc : c = admin := List.inj_on_of_nodup_map hn1 hcm hadmm1 hh
            subst hcc
            rw [hGadmin]
            exact hnbden
          · rw [hGother c hh]
            exact h3 c hcm

theorem findWallet_after_two_ensures (st : DBState) (cid1 cid2 : String) :
    findWallet (ensureWallet (ensureWallet st cid1).2 cid2).2 cid1 =
      some (ensureWallet st cid1).1 := by
  obtain ⟨_, _, _, _, hcid1, _, hfw1, _, _⟩ := ensureWallet_spec st cid1
  obtain ⟨_, _, _, _, _, _, _, _, extra, hwl, _⟩ :=
    ensureWallet_spec (ensureWallet st cid1).2 cid2
  show List.find? _ _ = _
  rw [hwl, List.find?_append]
  have : List.find? (fun w => w.companyId == cid1) (ensureWallet st cid1).2.wallets =
      some (ensureWallet st cid1).1 := hfw1
  rw [this]
  rfl

theorem findWallet_commitTransfer (st2 : DBState) (sc tc : Company) (sw tw : Wallet)
    (a : ℚ) (cid : String) :
    findWallet (commitTransfer st2 sc tc sw tw a) cid =
      Option.map (fun w =>
        (fun w2 => if w2.id = tw.id then { w2 with balance := tw.balance + a } else w2)
        ((fun w1 => if w1.id = sw.id then { w1 with balance := sw.balance - a } else w1) w))
        (findWallet st2 cid) := by
  rw [commitTransfer_def]
  show List.find? (fun w => w.companyId == cid)
      (setWalletBalance (setWalletBalance st2.wallets sw.id (sw.balance - a))
        tw.id (tw.balance + a)) = _
  unfold setWalletBalance
  rw [List.map_map, List.find?_map]
  have hp : ((fun w : Wallet => w.companyId == cid) ∘
      ((fun w2 : Wallet => if w2.id = tw.id then { w2 with balance := tw.balance + a } else w2) ∘
        (fun w1 : Wallet => if w1.id = sw.id then { w1 with balance := sw.balance - a } else w1)))
      = (fun w : Wallet => w.companyId == cid) := by
    funext w
    dsimp only [Function.comp]
    by_cases h1 : w.id = sw.id
    · rw [if_pos h1]
      dsimp only
      by_cases h2 : w.id = tw.id
      · rw [if_pos h2]
      · rw [if_neg h2]
    · rw [if_neg h1]
      by_cases h2 : w.id = tw.id
      · rw [if_pos h2]
      · rw [if_neg h2]
  rw [hp]
  rfl

theorem assignCoin_ok_inversion {st : DBState} {s t : String} {a sb tb : ℚ} {st' : DBState}
    (h : assignCoin st s t a = (.ok sb tb, st')) :
    ∃ sc tc, findCompany st s = some sc ∧ findCompany st t = some tc ∧
      t ≠ "" ∧ a ≠ 0 ∧
      (sc.role = .ADMIN ∨
        (isInMyHierarchy st.companies s t = true ∧ canAssign sc.role tc.role = true)) ∧
      ¬(ensureWallet st sc.id).1.balance < a ∧
      sb = (ensureWallet st sc.id).1.balance - a ∧
      tb = (ensureWallet (ensureWallet st sc.id).2 tc.id).1.balance + a ∧
      st' = commitTransfer (ensureWallet (ensureWallet st sc.id).2 tc.id).2 sc tc
        (ensureWallet st sc.id).1 (ensureWallet (ensureWallet st sc.id).2 tc.id).1 a := by
  unfold assignCoin at h
  split at h
  · exact absurd h (by simp)
  · split at h
    case _ sc tc hsc htc =>
      dsimp only at h
      split at h
      · exact absurd h (by simp)
      · split at h
        · exact absurd h (by simp)
        · split at h
          · exact absurd h (by simp)
          · rename_i hor hd1 hd2 hadm hcan hbal
            push_neg at hor
            injection h with h1 h2
            injection h1 with h3 h4
            refine ⟨sc, tc, hsc, htc, hor.1, hor.2, ?_, hbal, h3.symm, h4.symm, h2.symm⟩
            by_cases hrole : sc.role = Role.ADMIN
            · exact Or.inl hrole
            · refine Or.inr ⟨?_, ?_⟩
              · by_cases hh : isInMyHierarchy st.companies s t = true
                · exact hh
                · exact absurd ⟨hrole, Bool.eq_false_iff.mpr fun hx => hh (by simp [hx])⟩ hadm
              · by_cases hh : canAssign sc.role tc.role = true
                · exact hh
                · exact absurd ⟨hrole, Bool.eq_false_iff.mpr fun hx => hh (by simp [hx])⟩ hcan
    case _ => exact absurd h (by simp)

theorem ensureWallet_of_found {st : DBState} {cid : String} {w : Wallet}
    (h : findWallet st cid = some w) : ensureWallet st cid = (w, st) := by
  unfold ensureWallet
  rw [h]

theorem ensureWallet_balance (st : DBState) (cid : String) :
    (ensureWallet st cid).1.balance = walletBalance st cid := by
  unfold ensureWallet walletBalance
  cases hfw : findWallet st cid <;> rfl

theorem findWallet_ensure_other (st : DBState) (cid1 cid2 : String) (hne : cid2 ≠ cid1) :
    findWallet (ensureWallet st cid1).2 cid2 = findWallet st cid2 := by
  unfold ensureWallet
  cases hfw : findWallet st cid1 with
  | some w => rfl
  | none =>
      dsimp only
      show List.find? _ (st.wallets ++ [⟨st.nextWalletId, cid1, 0⟩]) = _
      rw [List.find?_append]
      cases hfw2 : findWallet st cid2 with
      | some w2 =>
          have : List.find? (fun w => w.companyId == cid2) st.wallets = some w2 := hfw2
          rw [this]
          rfl
      | none =>
          have : List.find? (fun w => w.companyId == cid2) st.wallets = none := hfw2
          rw [this]
          show Option.or none (List.find? (fun w : Wallet => w.companyId == cid2)
            [⟨st.nextWalletId, cid1, 0⟩]) = none
          have hb : ((⟨st.nextWalletId, cid1, 0⟩ : Wallet).companyId == cid2) = false :=
            beq_eq_false_iff_ne.mpr (fun hx => hne (hx.symm))
          simp [List.find?, hb]

theorem ensureWallet_WF (st : DBState) (cid : String) (hwf : WF st) :
    WF (ensureWallet st cid).2 := by
  obtain ⟨h1, h2, h3, h4, h5⟩ := hwf
  unfold ensureWallet
  cases hfw : findWallet st cid with
  | some w => exact ⟨h1, h2, h3, h4, h5⟩
  | none =>
      dsimp only
      have hnone : ∀ w ∈ st.wallets, w.companyId ≠ cid := findWallet_none hfw
      refine ⟨h1, ?_, ?_, ?_, ?_⟩
      · rw [List.map_append, List.nodup_append]
        refine ⟨h2, by simp, ?_⟩
        intro x hx hx2
        simp only [List.map_cons, List.map_nil, List.mem_cons, List.not_mem_nil,
          or_false] at hx2
        rcases List.mem_map.mp hx with ⟨w, hw, hwid⟩
        have := h4 w hw
        omega
      · rw [List.map_append, List.nodup_append]
        refine ⟨h3, by simp, ?_⟩
        intro x hx hx2
        simp only [List.map_cons, List.map_nil, List.mem_cons, List.not_mem_nil,
          or_false] at hx2
        rcases List.mem_map.mp hx with ⟨w, hw, hwid⟩
        exact hnone w hw (hwid.symm ▸ hx2 ▸ rfl)
      · intro w hw
        rcases List.mem_append.mp hw with hw | hw
        · have := h4 w hw
          dsimp only
          omega
        · simp only [List.mem_singleton] at hw
          subst hw
          dsimp only
          omega
      · intro e he
        have := h5 e he
        dsimp only
        omega

theorem walletBalance_of_find {st : DBState} {cid : String} {w : Wallet}
    (h : findWallet st cid = some w) : walletBalance st cid = w.balance := by
  unfold walletBalance
  rw [h]
  rfl

/-- C5 (amended): every successful transfer BETWEEN DISTINCT ACCOUNTS, on a
well-formed store, appends exactly one WITHDRAW ledger row for the sender
(with the target as source reference) and one RECHARGE row for the target
(with the sender as source reference), both carrying the same amount, and
the sender's effective balance decrease equals the target's increase
(conservation).  The distinctness hypothesis is forced by the ADMIN
self-transfer counterexample. -/
theorem assignCoin_ok_ledger_and_conservation
    {st : DBState} {s t : String} {a sb tb : ℚ} {st' : DBState}
    (hwf : WF st) (hne : s ≠ t)
    (h : assignCoin st s t a = (.ok sb tb, st')) :
    ∃ (sc tc : Company) (sw tw : Wallet),
      findCompany st s = some sc ∧ findCompany st t = some tc ∧
      st'.ledgers = st.ledgers ++
        [⟨sc.id, sw.id, .WITHDRAW, a, sw.balance - a, some "COMPANY", some tc.id,
          "Transfer to " ++ tc.username⟩,
         ⟨tc.id, tw.id, .RECHARGE, a, tw.balance + a, some "COMPANY", some sc.id,
          "Received from " ++ sc.username⟩] ∧
      walletBalance st' s = walletBalance st s - a ∧
      walletBalance st' t = walletBalance st t + a ∧
      walletBalance st s - walletBalance st' s = walletBalance st' t - walletBalance st t := by
  obtain ⟨sc, tc, hsc, htc, ht0, ha0, hgate, hbal, hsb, htb, hst⟩ := assignCoin_ok_inversion h
  obtain ⟨hscm, hscid⟩ := findCompany_mem hsc
  obtain ⟨htcm, htcid⟩ := findCompany_mem htc
  have hnecid : sc.id ≠ tc.id := by rw [hscid, htcid]; exact hne
  have hwfA : WF (ensureWallet st sc.id).2 := ensureWallet_WF st sc.id hwf
  have hwfB : WF (ensureWallet (ensureWallet st sc.id).2 tc.id).2 :=
    ensureWallet_WF _ tc.id hwfA
  obtain ⟨hsA, hlA, hpA, haA, hAcid, hAmem, hAfw, _, _⟩ := ensureWallet_spec st sc.id
  obtain ⟨hsB, hlB, hpB, haB, hBcid, hBmem, hBfw, _, extraB, hBw, _⟩ :=
    ensureWallet_spec (ensureWallet st sc.id).2 tc.id
  have hAmemB : (ensureWallet st sc.id).1 ∈
      (ensureWallet (ensureWallet st sc.id).2 tc.id).2.wallets := by
    rw [hBw]
    exact List.mem_append.mpr (Or.inl hAmem)
  have hswtw : (ensureWallet st sc.id).1 ≠ (ensureWallet (ensureWallet st sc.id).2 tc.id).1 :=
    fun hx => hnecid (by rw [← hAcid, hx, hBcid])
  have hidne : (ensureWallet st sc.id).1.id ≠
      (ensureWallet (ensureWallet st sc.id).2 tc.id).1.id :=
    fun hx => hswtw (List.inj_on_of_nodup_map hwfB.2.1 hAmemB hBmem hx)
  have hfws2 : findWallet (ensureWallet (ensureWallet st sc.id).2 tc.id).2 s =
      some (ensureWallet st sc.id).1 := by
    rw [← hscid] at *
    exact findWallet_after_two_ensures st sc.id tc.id
  have hfwt2 : findWallet (ensureWallet (ensureWallet st sc.id).2 tc.id).2 t =
      some (ensureWallet (ensureWallet st sc.id).2 tc.id).1 := by
    rw [← htcid]
    exact hBfw
  have hfixS : findWallet (commitTransfer (ensureWallet (ensureWallet st sc.id).2 tc.id).2
      sc tc (ensureWallet st sc.id).1 (ensureWallet (ensureWallet st sc.id).2 tc.id).1 a) s =
      some { (ensureWallet st sc.id).1 with
        balance := (ensureWallet st sc.id).1.balance - a } := by
    rw [findWallet_commitTransfer, hfws2]
    dsimp only [Option.map]
    rw [if_pos rfl]
    dsimp only
    rw [if_neg hidne]
  have hfixT : findWallet (commitTransfer (ensureWallet (ensureWallet st sc.id).2 tc.id).2
      sc tc (ensureWallet st sc.id).1 (ensureWallet (ensureWallet st sc.id).2 tc.id).1 a) t =
      some { (ensureWallet (ensureWallet st sc.id).2 tc.id).1 with
        balance := (ensureWallet (ensureWallet st sc.id).2 tc.id).1.balance + a } := by
    rw [findWallet_commitTransfer, hfwt2]
    dsimp only [Option.map]
    rw [if_neg (show ¬((ensureWallet (ensureWallet st sc.id).2 tc.id).1.id =
      (ensureWallet st sc.id).1.id) from fun hx => hidne hx.symm)]
    rw [if_pos rfl]
  have hWS : walletBalance st s = (ensureWallet st sc.id).1.balance := by
    rw [← hscid, ensureWallet_balance]
  have hWT : walletBalance st t = (ensureWallet (ensureWallet st sc.id).2 tc.id).1.balance := by
    have hb1 : (ensureWallet (ensureWallet st sc.id).2 tc.id).1.balance =
        walletBalance (ensureWallet st sc.id).2 t := by
      rw [← htcid]
      exact ensureWallet_balance _ tc.id
    rw [hb1]
    unfold walletBalance
    rw [findWallet_ensure_other st sc.id t (by rw [← hscid] at hne; exact hne.symm)]
  refine ⟨sc, tc, (ensureWallet st sc.id).1, (ensureWallet (ensureWallet st sc.id).2 tc.id).1,
    hsc, htc, ?_, ?_, ?_, ?_⟩
  · rw [hst, commitTransfer_def]
    dsimp only
    rw [hlB, hlA]
  · rw [hst, walletBalance_of_find hfixS, hWS]
  · rw [hst, walletBalance_of_find hfixT, hWT]
  · rw [hst, walletBalance_of_find hfixS, walletBalance_of_find hfixT, hWS, hWT]
    dsimp only
    ring

/-- C8 (amended): a successful transfer's atomic effect consists of the two
wallet balance updates, the two `points` updates and the two ledger rows —
and NO AuditLog entry (the audits table is untouched; only `loadCoins`
writes one).  Payments are untouched as well and no company row is created
or deleted. -/
theorem assignCoin_ok_no_audit
    {st : DBState} {s t : String} {a sb tb : ℚ} {st' : DBState}
    (h : assignCoin st s t a = (.ok sb tb, st')) :
    st'.audits = st.audits ∧ st'.payments = st.payments ∧
    st'.ledgers.length = st.ledgers.length + 2 ∧
    st'.companies.map Company.id = st.companies.map Company.id := by
  obtain ⟨sc, tc, hsc, htc, _, _, _, _, _, _, hst⟩ := assignCoin_ok_inversion h
  obtain ⟨hsA, hlA, hpA, haA, _, _, _, _, _⟩ := ensureWallet_spec st sc.id
  obtain ⟨hsB, hlB, hpB, haB, _, _, _, _, _⟩ :=
    ensureWallet_spec (ensureWallet st sc.id).2 tc.id
  rw [hst, commitTransfer_def]
  refine ⟨?_, ?_, ?_, ?_⟩
  · dsimp only
    rw [haB, haA]
  · dsimp only
    rw [hpB, hpA]
  · dsimp only
    rw [List.length_append, hlB, hlA]
    rfl
  · dsimp only
    rw [adjustPoints_id, adjustPoints_id, hsB, hsA]

/-- C9 (amended): a transfer rejected with InsufficientBalance creates no
ledger, payment or audit rows and leaves every company (hence every balance
and `points` value) unchanged — but wallet rows for the sender/target may
have been lazily created (with balance 0) before the check, so the wallet
table is the original one plus possibly such zero-balance rows. -/
theorem assignCoin_insufficient_only_wallet_rows
    {st : DBState} {s t : String} {a : ℚ} {st' : DBState}
    (h : assignCoin st s t a = (.insufficientBalance, st')) :
    st'.companies = st.companies ∧ st'.ledgers = st.ledgers ∧
    st'.payments = st.payments ∧ st'.audits = st.audits ∧
    ∃ extra, st'.wallets = st.wallets ++ extra ∧ ∀ w ∈ extra, w.balance = 0 := by
  unfold assignCoin at h
  split at h
  · exact absurd h (by simp)
  · split at h
    case _ sc tc hsc htc =>
      dsimp only at h
      split at h
      · exact absurd h (by simp)
      · split at h
        · exact absurd h (by simp)
        · split at h
          · injection h with h1 h2
            obtain ⟨hsA, hlA, hpA, haA, _, _, _, _, extraA, hwA, hbA⟩ := ensureWallet_spec st sc.id
            obtain ⟨hsB, hlB, hpB, haB, _, _, _, _, extraB, hwB, hbB⟩ :=
              ensureWallet_spec (ensureWallet st sc.id).2 tc.id
            subst h2
            refine ⟨by rw [hsB, hsA], by rw [hlB, hlA], by rw [hpB, hpA], by rw [haB, haA],
              extraA ++ extraB, ?_, ?_⟩
            · rw [hwB, hwA, List.append_assoc]
            · intro w hw
              rcases List.mem_append.mp hw with hw | hw
              · exact hbA w hw
              · exact hbB w hw
          · exact absurd h (by simp)
    case _ => exact absurd h (by simp)

/-- C2: a transfer by a non-ADMIN sender succeeds only if the target is in
the sender's descendant subtree AND `canAssign(senderRole, targetRole)`
holds (which for non-admin senders means the target's role is exactly one
level below the sender's); an ADMIN sender skips both checks, so ADMIN may
transfer to a target of any of the four non-ADMIN roles whenever the
parties exist, the parameters pass the guard and the balance suffices. -/
theorem assignCoin_role_and_membership_gate :
    (∀ (st : DBState) (s t : String) (a sb tb : ℚ) (st' : DBState) (sc tc : Company),
      assignCoin st s t a = (.ok sb tb, st') →
      findCompany st s = some sc → findCompany st t = some tc →
      sc.role ≠ .ADMIN →
      isInMyHierarchy st.companies s t = true ∧ canAssign sc.role tc.role = true ∧
        roleHierarchy tc.role + 1 = roleHierarchy sc.role) ∧
    (∀ (st : DBState) (s t : String) (a : ℚ) (sc tc : Company) (sw : Wallet),
      findCompany st s = some sc → findCompany st t = some tc →
      sc.role = .ADMIN → t ≠ "" → a ≠ 0 →
      findWallet st s = some sw → ¬sw.balance < a →
      ∃ sb tb st', assignCoin st s t a = (.ok sb tb, st')) := by
  constructor
  · intro st s t a sb tb st' sc tc h hsc htc hrole
    obtain ⟨sc', tc', hsc', htc', _, _, hgate, _, _, _, _⟩ := assignCoin_ok_inversion h
    rw [hsc] at hsc'
    injection hsc' with he1
    rw [htc] at htc'
    injection htc' with he2
    subst he1
    subst he2
    rcases hgate with hadm | ⟨hh, hca⟩
    · exact absurd hadm hrole
    · refine ⟨hh, hca, ?_⟩
      have hone : ∀ s2 r2 : Role, s2 ≠ .ADMIN → canAssign s2 r2 = true →
          roleHierarchy r2 + 1 = roleHierarchy s2 := by decide
      exact hone _ _ hrole hca
  · intro st s t a sc tc sw hsc htc hrole ht ha hfw hbal
    have hscid := (findCompany_mem hsc).2
    have hA : ensureWallet st sc.id = (sw, st) :=
      ensureWallet_of_found (by rw [hscid]; exact hfw)
    refine ⟨sw.balance - a, (ensureWallet st tc.id).1.balance + a,
      commitTransfer (ensureWallet st tc.id).2 sc tc sw (ensureWallet st tc.id).1 a, ?_⟩
    unfold assignCoin
    rw [if_neg (by push_neg; exact ⟨ht, ha⟩)]
    rw [hsc, htc]
    dsimp only
    rw [if_neg (fun hx => hx.1 hrole)]
    rw [if_neg (fun hx => hx.1 hrole)]
    rw [hA]
    dsimp only
    rw [if_neg hbal]

/-- C4 (amended): with valid parameters and no username/email conflict, the
two `createUser` code paths differ: the `company.controller` path
(`createUser13`) succeeds iff `canAssign(creatorRole, newRole)` holds (an
ADDITIONAL role condition beyond the total order), while the near-duplicate
path (`createUser10`) succeeds iff `levelOf(newRole) < levelOf(creatorRole)`
exactly as the claim states. -/
theorem createUser_role_gate_characterization :
    ∀ (st : DBState) (creator : Company) (newId username password : String) (role : Role)
      (email : String),
      username ≠ "" → password ≠ "" →
      (st.companies.find? (fun c => c.username == username || c.email == email)).isSome
        = false →
      (((createUser13 st creator newId username password role email).1 = .created newId) ↔
        canAssign creator.role role = true) ∧
      (((createUser10 st creator newId username password role email).1 = .created newId) ↔
        roleHierarchy role < roleHierarchy creator.role) := by
  intro st creator newId username password role email hu hp hconf
  have hcanlt : ∀ s2 r2 : Role, canAssign s2 r2 = true →
      roleHierarchy r2 < roleHierarchy s2 := by decide
  have hconf10 : (st.companies.find? (fun c => c.username == username)).isSome = false := by
    cases hh : (st.companies.find? (fun c => c.username == username)).isSome
    · rfl
    · rcases List.find?_isSome.mp hh with ⟨c, hc, hpc⟩
      have hx : (st.companies.find?
          (fun c => c.username == username || c.email == email)).isSome = true :=
        List.find?_isSome.mpr ⟨c, hc, by rw [Bool.or_eq_true]; exact Or.inl hpc⟩
      rw [hx] at hconf
      cases hconf
  constructor
  · unfold createUser13
    rw [if_neg (by push_neg; exact ⟨hu, hp⟩)]
    by_cases hlev : roleHierarchy creator.role ≤ roleHierarchy role
    · rw [if_pos hlev]
      constructor
      · intro hx
        exact absurd hx (by simp)
      · intro hx
        exact absurd (hcanlt _ _ hx) (by omega)
    · rw [if_neg hlev]
      by_cases hca : canAssign creator.role role = false
      · rw [if_pos hca]
        constructor
        · intro hx
          exact absurd hx (by simp)
        · intro hx
          rw [hx] at hca
          cases hca
      · rw [if_neg hca]
        rw [if_neg (show ¬((st.companies.find?
            (fun c => c.username == username || c.email == email)).isSome = true) from
          fun hx => by rw [hconf] at hx; cases hx)]
        constructor
        · intro _
          cases hh : canAssign creator.role role
          · exact absurd hh hca
          · rfl
        · intro _
          rfl
  · unfold createUser10
    rw [if_neg (by push_neg; exact ⟨hu, hp⟩)]
    by_cases hlev : roleHierarchy creator.role ≤ roleHierarchy role
    · rw [if_pos hlev]
      constructor
      · intro hx
        exact absurd hx (by simp)
      · intro hx
        omega
    · rw [if_neg hlev]
      rw [if_neg (show ¬((st.companies.find?
          (fun c => c.username == username)).isSome = true) from
        fun hx => by rw [hconf10] at hx; cases hx)]
      constructor
      · intro _
        omega
      · intro _
        rfl

/-- C3 (amended): after any sequence of `loadCoins`/`assignCoin` operations
whose amounts are integers and whose transfers are between two distinct
accounts, starting from a well-formed consistent state, every wallet's
balance still equals the running sum of signed ledger amounts for that
wallet, every account's `points` mirrors its wallet balance (0 without a
wallet), and all `points` stay integral (representable in the INTEGER
column).  Both restrictions are forced by `reconciliation_fails_on_code`. -/
theorem runOps_preserves_reconciliation :
    ∀ (ops : List Op) (st : DBState),
      WF st → Consistent st → PointsIntegral st →
      (∀ op ∈ ops, GoodOp op) →
      WF (runOps st ops) ∧ Consistent (runOps st ops) ∧ PointsIntegral (runOps st ops) := by
  intro ops
  induction ops with
  | nil =>
      intro st h1 h2 h3 _
      exact ⟨h1, h2, h3⟩
  | cons op ops ih =>
      intro st h1 h2 h3 hgood
      have hop := hgood op (List.mem_cons_self op ops)
      have hrest : ∀ o ∈ ops, GoodOp o := fun o ho => hgood o (List.mem_cons_of_mem op ho)
      have hstep : WF (applyOp st op) ∧ Consistent (applyOp st op) ∧
          PointsIntegral (applyOp st op) := by
        cases op with
        | load adminId amount => exact loadCoins_preserves h1 h2 h3 hop
        | transfer s t amount => exact assignCoin_preserves h1 h2 h3 hop.2 hop.1
      have hrun : runOps st (op :: ops) = runOps (applyOp st op) ops := rfl
      rw [hrun]
      exact ih (applyOp st op) hstep.1 hstep.2.1 hstep.2.2 hrest

/-- C3 counterexample: the claim fails as stated, in two ways the code
accepts.  (1) An ADMIN self-transfer (accepted: the admin branch checks
nothing) of an integral amount breaks `Wallet.balance = sum of signed
ledger amounts` — balance becomes 15 while the signed sum stays 10.
(2) A non-integer amount (1/2) is accepted, and the resulting `points`
value 1/2 cannot be stored in the INTEGER `companies.points` column (its
denominator is 2), so `Account.points = Wallet.balance` is unsatisfiable. -/
theorem reconciliation_fails_on_code :
    Consistent egAdminSelfSt ∧ PointsIntegral egAdminSelfSt ∧
    Consistent egAdminSt ∧ PointsIntegral egAdminSt ∧
    (assignCoin egAdminSelfSt "a" "a" 5).1 = .ok 5 15 ∧
    ¬Consistent (assignCoin egAdminSelfSt "a" "a" 5).2 ∧
    (assignCoin egAdminSt "a" "d" (1/2)).1 = .ok (19/2) (1/2) ∧
    ¬PointsIntegral (assignCoin egAdminSt "a" "d" (1/2)).2 := by
  have hst1 : (assignCoin egAdminSelfSt "a" "a" 5).2 =
      { companies := [mkCompany "a" .ADMIN none 10],
        wallets := [⟨0, "a", 15⟩],
        ledgers := [⟨"a", 0, .RECHARGE, 10, 10, none, none, ""⟩,
          ⟨"a", 0, .WITHDRAW, 5, 5, some "COMPANY", some "a", "Transfer to a"⟩,
          ⟨"a", 0, .RECHARGE, 5, 15, some "COMPANY", some "a", "Received from a"⟩],
        payments := [], audits := [], nextWalletId := 1 } := by
    simp [assignCoin, egAdminSelfSt, mkCompany, findCompany, findWallet, ensureWallet,
      isInMyHierarchy, isInMyHierarchyFuel, childrenOf, canAssign, assignMap, commitTransfer,
      List.find?, List.filter, List.any, setWalletBalance, adjustPoints]
    norm_num
  have hst2 : (assignCoin egAdminSt "a" "d" (1/2)).2 =
      { companies := [mkCompany "a" .ADMIN none (19/2), mkCompany "d" .DISTRIBUTOR
          (some "a") (1/2)],
        wallets := [⟨0, "a", 19/2⟩, ⟨1, "d", 1/2⟩],
        ledgers := [⟨"a", 0, .RECHARGE, 10, 10, none, none, ""⟩,
          ⟨"a", 0, .WITHDRAW, 1/2, 19/2, some "COMPANY", some "d", "Transfer to d"⟩,
          ⟨"d", 1, .RECHARGE, 1/2, 1/2, some "COMPANY", some "a", "Received from a"⟩],
        payments := [], audits := [], nextWalletId := 2 } := by
    simp [assignCoin, egAdminSt, mkCompany, findCompany, findWallet, ensureWallet,
      isInMyHierarchy, isInMyHierarchyFuel, childrenOf, canAssign, assignMap, commitTransfer,
      List.find?, List.filter, List.any, setWalletBalance, adjustPoints]
    norm_num
  refine ⟨?_, ?_, ?_, ?_, ?_, ?_, ?_, ?_⟩
  · refine ⟨?_, ?_, ?_⟩
    · intro w hw
      simp [egAdminSelfSt] at hw
      subst hw
      simp [ledgerSum, signedAmount, List.filter, egAdminSelfSt]
    · intro c hcm w hw hcw
      simp [egAdminSelfSt, mkCompany] at hcm hw
      subst hcm
      subst hw
      simp [mkCompany]
    · intro c hcm hno
      simp [egAdminSelfSt, mkCompany] at hcm
      exfalso
      refine hno ⟨0, "a", 10⟩ (by simp [egAdminSelfSt]) ?_
      rw [hcm]
  · intro c hc
    simp [egAdminSelfSt, mkCompany] at hc
    rw [hc]
    norm_num [mkCompany]
  · refine ⟨?_, ?_, ?_⟩
    · intro w hw
      simp [egAdminSt] at hw
      subst hw
      simp [ledgerSum, signedAmount, List.filter, egAdminSt]
    · intro c hcm w hw hcw
      simp [egAdminSt, mkCompany] at hcm hw
      subst hw
      rcases hcm with hc | hc
      · subst hc
        simp [mkCompany]
      · subst hc
        simp [mkCompany] at hcw
    · intro c hcm hno
      simp [egAdminSt, mkCompany] at hcm
      rcases hcm with hc | hc
      · exfalso
        refine hno ⟨0, "a", 10⟩ (by simp [egAdminSt]) ?_
        rw [hc]
      · rw [hc]
  · intro c hc
    simp [egAdminSt, mkCompany] at hc
    rcases hc with hc | hc <;> rw [hc] <;> norm_num [mkCompany]
  · simp [assignCoin, egAdminSelfSt, mkCompany, findCompany, findWallet, ensureWallet,
      isInMyHierarchy, isInMyHierarchyFuel, childrenOf, canAssign, assignMap, commitTransfer,
      List.find?, List.filter, List.any, setWalletBalance, adjustPoints]
    norm_num
  · rw [hst1]
    rintro ⟨hc1, -, -⟩
    have h15 := hc1 ⟨0, "a", 15⟩ (by simp)
    simp [ledgerSum, signedAmount, List.filter] at h15
  · simp [assignCoin, egAdminSt, mkCompany, findCompany, findWallet, ensureWallet,
      isInMyHierarchy, isInMyHierarchyFuel, childrenOf, canAssign, assignMap, commitTransfer,
      List.find?, List.filter, List.any, setWalletBalance, adjustPoints]
    norm_num
  · rw [hst2]
    intro hpi
    have hd := hpi (mkCompany "d" .DISTRIBUTOR (some "a") (1/2)) (by simp)
    have : (mkCompany "d" .DISTRIBUTOR (some "a") (1/2)).points = 1/2 := rfl
    rw [this] at hd
    norm_num at hd

/-- Witness for C2 at concrete states: a STORE→child-PLAYER success passes
both gates, and an ADMIN transfer to its distributor succeeds. -/
theorem assignCoin_role_and_membership_gate_witness :
    (isInMyHierarchy egStoreSt.companies "s" "p" = true ∧
      canAssign Role.STORE Role.PLAYER = true ∧
      roleHierarchy Role.PLAYER + 1 = roleHierarchy Role.STORE) ∧
    (∃ sb tb st', assignCoin egAdminSt "a" "d" 2 = (.ok sb tb, st')) := by
  have h1 : (assignCoin egStoreSt "s" "p" 10).1 = .ok 40 110 := by
    simp [assignCoin, egStoreSt, mkCompany, findCompany, findWallet, ensureWallet,
      isInMyHierarchy, isInMyHierarchyFuel, childrenOf, canAssign, assignMap, commitTransfer,
      List.find?, List.filter, List.any, setWalletBalance, adjustPoints]
    norm_num
  have hrun : assignCoin egStoreSt "s" "p" 10 =
      (.ok 40 110, (assignCoin egStoreSt "s" "p" 10).2) := by
    rw [← h1]
  constructor
  · have := assignCoin_role_and_membership_gate.1 egStoreSt "s" "p" 10 40 110
      (assignCoin egStoreSt "s" "p" 10).2 (mkCompany "s" .STORE none 50)
      (mkCompany "p" .PLAYER (some "s") 100) hrun rfl rfl (by decide)
    exact this
  · exact assignCoin_role_and_membership_gate.2 egAdminSt "a" "d" 2
      (mkCompany "a" .ADMIN none 10) (mkCompany "d" .DISTRIBUTOR (some "a") 0)
      ⟨0, "a", 10⟩ rfl rfl rfl (by decide) (by norm_num) rfl (by norm_num)

/-- Witness for C5 on the concrete store→player transfer of 10 coins. -/
theorem assignCoin_ok_ledger_and_conservation_witness :
    ∃ (sc tc : Company) (sw tw : Wallet),
      findCompany egStoreSt "s" = some sc ∧ findCompany egStoreSt "p" = some tc ∧
      ((assignCoin egStoreSt "s" "p" 10).2).ledgers = egStoreSt.ledgers ++
        [⟨sc.id, sw.id, .WITHDRAW, 10, sw.balance - 10, some "COMPANY", some tc.id,
          "Transfer to " ++ tc.username⟩,
         ⟨tc.id, tw.id, .RECHARGE, 10, tw.balance + 10, some "COMPANY", some sc.id,
          "Received from " ++ sc.username⟩] ∧
      walletBalance (assignCoin egStoreSt "s" "p" 10).2 "s" =
        walletBalance egStoreSt "s" - 10 ∧
      walletBalance (assignCoin egStoreSt "s" "p" 10).2 "p" =
        walletBalance egStoreSt "p" + 10 ∧
      walletBalance egStoreSt "s" - walletBalance (assignCoin egStoreSt "s" "p" 10).2 "s" =
        walletBalance (assignCoin egStoreSt "s" "p" 10).2 "p" -
          walletBalance egStoreSt "p" := by
  have h1 : (assignCoin egStoreSt "s" "p" 10).1 = .ok 40 110 := by
    simp [assignCoin, egStoreSt, mkCompany, findCompany, findWallet, ensureWallet,
      isInMyHierarchy, isInMyHierarchyFuel, childrenOf, canAssign, assignMap, commitTransfer,
      List.find?, List.filter, List.any, setWalletBalance, adjustPoints]
    norm_num
  have hrun : assignCoin egStoreSt "s" "p" 10 =
      (.ok 40 110, (assignCoin egStoreSt "s" "p" 10).2) := by
    rw [← h1]
  exact assignCoin_ok_ledger_and_conservation (by unfold WF; decide) (by decide) hrun

/-- Witness for C8 on the concrete store→player transfer of 10 coins. -/
theorem assignCoin_ok_no_audit_witness :
    ((assignCoin egStoreSt "s" "p" 10).2).audits = egStoreSt.audits ∧
    ((assignCoin egStoreSt "s" "p" 10).2).payments = egStoreSt.payments ∧
    ((assignCoin egStoreSt "s" "p" 10).2).ledgers.length = egStoreSt.ledgers.length + 2 ∧
    ((assignCoin egStoreSt "s" "p" 10).2).companies.map Company.id =
      egStoreSt.companies.map Company.id := by
  have h1 : (assignCoin egStoreSt "s" "p" 10).1 = .ok 40 110 := by
    simp [assignCoin, egStoreSt, mkCompany, findCompany, findWallet, ensureWallet,
      isInMyHierarchy, isInMyHierarchyFuel, childrenOf, canAssign, assignMap, commitTransfer,
      List.find?, List.filter, List.any, setWalletBalance, adjustPoints]
    norm_num
  have hrun : assignCoin egStoreSt "s" "p" 10 =
      (.ok 40 110, (assignCoin egStoreSt "s" "p" 10).2) := by
    rw [← h1]
  exact assignCoin_ok_no_audit hrun

/-- Witness for C9 on a rejected transfer between wallet-less accounts. -/
theorem assignCoin_insufficient_only_wallet_rows_witness :
    ((assignCoin egNoWalletSt "s" "p" 100).2).companies = egNoWalletSt.companies ∧
    ((assignCoin egNoWalletSt "s" "p" 100).2).ledgers = egNoWalletSt.ledgers ∧
    ((assignCoin egNoWalletSt "s" "p" 100).2).payments = egNoWalletSt.payments ∧
    ((assignCoin egNoWalletSt "s" "p" 100).2).audits = egNoWalletSt.audits ∧
    ∃ extra, ((assignCoin egNoWalletSt "s" "p" 100).2).wallets =
      egNoWalletSt.wallets ++ extra ∧ ∀ w ∈ extra, w.balance = 0 := by
  have h1 : (assignCoin egNoWalletSt "s" "p" 100).1 = .insufficientBalance := by
    simp [assignCoin, egNoWalletSt, mkCompany, findCompany, findWallet, ensureWallet,
      isInMyHierarchy, isInMyHierarchyFuel, childrenOf, canAssign, assignMap, commitTransfer,
      List.find?, List.filter, List.any, setWalletBalance, adjustPoints]
  have hrun : assignCoin egNoWalletSt "s" "p" 100 =
      (.insufficientBalance, (assignCoin egNoWalletSt "s" "p" 100).2) := by
    rw [← h1]
  exact assignCoin_insufficient_only_wallet_rows hrun

/-- Witness for C4: ADMIN→DISTRIBUTOR passes the stricter path and
DISTRIBUTOR→STORE passes the total-order-only path. -/
theorem createUser_role_gate_characterization_witness :
    (createUser13 egEmptySt (mkCompany "adm" .ADMIN none 0) "n" "u" "pw"
      .DISTRIBUTOR "").1 = .created "n" ∧
    (createUser10 egEmptySt (mkCompany "d" .DISTRIBUTOR none 0) "n" "u" "pw"
      .STORE "").1 = .created "n" := by
  constructor
  · exact (createUser_role_gate_characterization egEmptySt (mkCompany "adm" .ADMIN none 0)
      "n" "u" "pw" .DISTRIBUTOR "" (by decide) (by decide) rfl).1.mpr (by decide)
  · exact (createUser_role_gate_characterization egEmptySt (mkCompany "d" .DISTRIBUTOR none 0)
      "n" "u" "pw" .STORE "" (by decide) (by decide) rfl).2.mpr (by decide)

/-- Witness for C3 (amended) on a one-transfer sequence from a consistent
state. -/
theorem runOps_preserves_reconciliation_witness :
    Consistent (runOps egNoWalletSt [Op.transfer "s" "p" 100]) ∧
    PointsIntegral (runOps egNoWalletSt [Op.transfer "s" "p" 100]) := by
  have h := runOps_preserves_reconciliation [Op.transfer "s" "p" 100] egNoWalletSt
    (by unfold WF; decide)
    (⟨by simp [egNoWalletSt], by simp [egNoWalletSt], ?_⟩)
    ?_ ?_
  · exact ⟨h.2.1, h.2.2⟩
  · intro c hc _
    simp [egNoWalletSt, mkCompany] at hc
    rcases hc with hc | hc <;> rw [hc]
  · intro c hc
    simp [egNoWalletSt, mkCompany] at hc
    rcases hc with hc | hc <;> rw [hc] <;> norm_num [mkCompany]
  · intro op hop
    simp at hop
    rw [hop]
    refine ⟨by norm_num, by decide⟩
